import Mathlib

/-!
A verification development for the `actions/workflow-parser` Go repository:
a shallow embedding of the parser's data model, extraction pass, validation
pass and cycle detection, with theorems checking the specification's claims
against the embedded code.

Conventions of the embedding:
  * Go strings are Lean `String`s (byte-level slicing in the source only ever
    happens at ASCII boundaries on the paths modelled here).
  * Go `map[string]T` values are association lists built with in-place
    overwrite; Go's randomized map iteration order is modelled by an explicit
    iteration-order parameter wherever the source ranges over a map.
  * Functions that append to `parseState.Errors` are modelled as functions
    returning the list of diagnostics they emit, concatenated in the
    source's emission order.
-/

namespace WFP

/-- Position of a diagnostic (Go `ErrorPos`): file, line, column; all zero
when the diagnostic is not locatable. -/
structure ErrorPos where
  file : String := ""
  line : Nat := 0
  column : Nat := 0
deriving DecidableEq

/-- Severity of a diagnostic (Go `Severity`): WARNING, ERROR or FATAL. -/
inductive Severity where
  | warning
  | error
  | fatal
deriving DecidableEq

/-- A parser diagnostic (Go `Error` in the parser package). -/
structure PError where
  pos : ErrorPos
  severity : Severity
  message : String
deriving DecidableEq

/-- Go `newError`: an ERROR-severity diagnostic. -/
def newError (pos : ErrorPos) (msg : String) : PError :=
  ⟨pos, Severity.error, msg⟩

/-- Go `newWarning`: a WARNING-severity diagnostic. -/
def newWarning (pos : ErrorPos) (msg : String) : PError :=
  ⟨pos, Severity.warning, msg⟩

/-- Go `newFatal`: a FATAL-severity diagnostic. -/
def newFatal (pos : ErrorPos) (msg : String) : PError :=
  ⟨pos, Severity.fatal, msg⟩

/-- Go `model.Uses` / `ActionUses`: the decomposed `uses` attribute.
The parser leaves the original value in `Raw` and fills in the parts that
the recognized form sets. -/
structure Uses where
  Repo : String := ""
  Path : String := ""
  Ref : String := ""
  Image : String := ""
  Raw : String := ""
deriving DecidableEq

/-- Go `model.ActionCommand`: `runs`/`args`, raw string plus parsed vector. -/
structure ActionCommand where
  Raw : String := ""
  Parsed : List String := []
deriving DecidableEq

/-- Go `model.Action`.  `Env` is the Go `map[string]string` kept as an
association list (insertion order, later assignments overwrite in place);
the `pos…` fields carry what the source keeps in the address-keyed
`posMap` side table for this action. -/
structure Action where
  Identifier : String := ""
  Uses : WFP.Uses := {}
  Runs : ActionCommand := {}
  Args : ActionCommand := {}
  Needs : List String := []
  Env : List (String × String) := []
  Secrets : List String := []
  posSelf : ErrorPos := {}
  posNeeds : ErrorPos := {}
  posEnv : ErrorPos := {}
  posSecrets : ErrorPos := {}
deriving DecidableEq

/-- Go `model.Workflow`.  `Resolves` is `none` while the Go slice is nil
(never successfully parsed); the `pos…` fields mirror the posMap entries. -/
structure Workflow where
  Identifier : String := ""
  On : String := ""
  Resolves : Option (List String) := none
  posSelf : ErrorPos := {}
  posOn : ErrorPos := {}
  posResolves : ErrorPos := {}
deriving DecidableEq

/-- Go `model.Configuration`: the returned model. -/
structure Configuration where
  Version : Int := 0
  Actions : List Action := []
  Workflows : List Workflow := []
deriving DecidableEq

/-- Go `parseState` (without the address-keyed posMap, which the embedding
keeps inline in `Action`/`Workflow`). -/
structure parseState where
  Version : Int := 0
  Actions : List Action := []
  Workflows : List Workflow := []
  Errors : List PError := []
deriving DecidableEq

/-- Go `uniqStrings`: order-preserving deduplication with a seen-set. -/
def uniqStrings (items : List String) : List String :=
  go [] items
where
  /-- The loop of `uniqStrings`: `seen` is the set of strings already kept. -/
  go (seen : List String) : List String → List String
    | [] => []
    | item :: rest =>
      if item ∈ seen then go seen rest
      else item :: go (item :: seen) rest

/-- Specification-side restatement of the spec sentence "deduplicated,
order-preserving": keep each entry's first occurrence, in order (the head
is kept and all its later occurrences are removed). -/
def specDedup : List String → List String
  | [] => []
  | a :: l => a :: (specDedup l).filter (fun x => x ≠ a)

/-- Content side of splitting a character list at every position whose
character satisfies `p` (Go `strings.Split` with a one-character
separator, and `strings.FieldsFunc` modulo empty pieces).  Written by
structural recursion so that concrete inputs evaluate inside the kernel
(the core `String.splitOn` uses well-founded recursion and does not). -/
def splitOnPred (p : Char → Bool) : List Char → List (List Char)
  | [] => [[]]
  | a :: rest =>
    let r := splitOnPred p rest
    if p a then [] :: r
    else
      match r with
      | [] => [[a]]
      | h :: t => (a :: h) :: t

/-- Go `strings.Split(s, string(c))` for a one-character separator. -/
def goSplitChar (s : String) (c : Char) : List String :=
  (splitOnPred (fun a => a == c) s.data).map (fun l => String.mk l)

/-- Character-list prefix test (arguments: the prefix, then the list). -/
def goHasPrefixChars : List Char → List Char → Bool
  | [], _ => true
  | _ :: _, [] => false
  | a :: as, b :: bs => a == b && goHasPrefixChars as bs

/-- Go `strings.HasPrefix`. -/
def goHasPrefix (s p : String) : Bool :=
  goHasPrefixChars p.data s.data

/-- Go `strings.TrimPrefix`-style drop of the first `n` characters. -/
def goDrop (s : String) (n : Nat) : String :=
  String.mk (s.data.drop n)

/-- Go `strings.ToLower` (character-wise). -/
def goToLower (s : String) : String :=
  String.mk (s.data.map Char.toLower)

/-- Rejoin character-list pieces with the separator between them. -/
def joinSepChar (c : Char) : List (List Char) → List Char
  | [] => []
  | [l] => l
  | l :: rest => l ++ c :: joinSepChar c rest

/-- Go `strings.SplitN(s, string(c), 3)`: at most three pieces, the
remainder of the string (separators included) in the last piece. -/
def splitN3 (s : String) (c : Char) : List String :=
  let parts := splitOnPred (fun a => a == c) s.data
  if parts.length ≤ 3 then parts.map (fun l => String.mk l)
  else (parts.take 2).map (fun l => String.mk l) ++
    [String.mk (joinSepChar c (parts.drop 2))]

/-- Go `strings.Fields`: split on whitespace runs, dropping empty pieces. -/
def goFields (s : String) : List String :=
  ((splitOnPred Char.isWhitespace s.data).map (fun l => String.mk l)).filter
    (fun p => p ≠ "")

/-- The HCL token types the parser inspects, with `lowerName` matching
Go's `strings.ToLower(t.Type.String())`. -/
inductive TokenType where
  | strT
  | identT
  | numberT
  | floatT
  | boolT
deriving DecidableEq

/-- `strings.ToLower` of the HCL token type's name. -/
def TokenType.lowerName : TokenType → String
  | .strT => "string"
  | .identT => "ident"
  | .numberT => "number"
  | .floatT => "float"
  | .boolT => "bool"

/-- An HCL token as the parser consumes it: position, type, the raw text
(`Token.Text`, quotes included for STRING tokens) and the decoded value
(`Token.Value()`): `svalue` for STRING tokens, `ivalue` for NUMBER tokens. -/
structure Token where
  pos : ErrorPos := {}
  ty : TokenType := .identT
  text : String := ""
  svalue : String := ""
  ivalue : Int := 0

mutual

/-- The HCL AST shapes the parser walks: the root `ObjectList`, an
`ObjectType` (its `Lbrace` position and flattened item list), a
`LiteralType` and a `ListType`. -/
inductive Node where
  | objectList (items : List ObjItem)
  | object (lbrace : ErrorPos) (items : List ObjItem)
  | literal (tok : Token)
  | listNode (lbrack : ErrorPos) (elems : List Node)

/-- An HCL `ObjectItem`: its keys, whether `Assign` is a valid position
(i.e. the item is written with `=`), and its value node. -/
inductive ObjItem where
  | mk (keys : List Token) (assign : Bool) (val : Node)

end

/-- The keys of an object item. -/
def ObjItem.keys : ObjItem → List Token
  | .mk ks _ _ => ks

/-- Whether the item's `Assign` position is valid. -/
def ObjItem.assign : ObjItem → Bool
  | .mk _ a _ => a

/-- The item's value node. -/
def ObjItem.val : ObjItem → Node
  | .mk _ _ v => v

/-- Go `typename`: how a node is described in "Expected …, got …" errors. -/
def typename : Node → String
  | .objectList _ => "*ast.ObjectList"
  | .object _ _ => "object"
  | .literal tok => tok.ty.lowerName
  | .listNode _ _ => "list"

/-- Go `posFromToken`. -/
def posFromToken (t : Token) : ErrorPos := t.pos

/-- Go `posFromNode` for the node shapes the parser passes it (the
`ObjectItem` case of the Go type switch is `posFromItem` below). -/
def posFromNode : Node → ErrorPos
  | .objectList items =>
    match items with
    | [] => {}
    | i :: _ =>
      match i.keys with
      | [] => {}
      | k :: _ => k.pos
  | .object lbrace _ => lbrace
  | .literal tok => tok.pos
  | .listNode lbrack _ => lbrack

/-- Go `posFromNode` applied to an `*ast.ObjectItem`: recurses into the
item's value. -/
def posFromItem (i : ObjItem) : ErrorPos :=
  posFromNode i.val

/-- Go `posFromObjectItem`: position of the first key (used where the item
may carry no value). -/
def posFromObjectItem (i : ObjItem) : ErrorPos :=
  match i.keys with
  | [] => {}
  | k :: _ => k.pos

/-- Go `isAssignment`: one key and a valid assign position. -/
def isAssignment (i : ObjItem) : Bool :=
  i.keys.length == 1 && i.assign

/-- Go `identString`: the string behind a key token; non-string,
non-identifier tokens produce an error and the empty string. -/
def identString (t : Token) : String × List PError :=
  match t.ty with
  | .strT => (t.svalue, [])
  | .identT => (t.text, [])
  | _ =>
    ("", [newError (posFromToken t)
      ("Each identifier should be a string, got " ++ t.ty.lowerName)])

/-- Go `literalToString` (via `literalCast` with `token.STRING`): the
decoded string of a string literal; anything else errors. -/
def literalToString (node : Node) : (String × Bool) × List PError :=
  match node with
  | .literal tok =>
    if tok.ty == .strT then ((tok.svalue, true), [])
    else (("", false),
      [newError (posFromNode node) ("Expected string, got " ++ typename node)])
  | _ =>
    (("", false),
      [newError (posFromNode node) ("Expected string, got " ++ typename node)])

/-- Go `literalToInt` (via `literalCast` with `token.NUMBER`). -/
def literalToInt (node : Node) : (Int × Bool) × List PError :=
  match node with
  | .literal tok =>
    if tok.ty == .numberT then ((tok.ivalue, true), [])
    else ((0, false),
      [newError (posFromNode node) ("Expected number, got " ++ typename node)])
  | _ =>
    ((0, false),
      [newError (posFromNode node) ("Expected number, got " ++ typename node)])

/-- Go `literalToStringArray`: a list of strings from a `ListType` node
(ill-typed entries are skipped with their own diagnostics), or a promoted
scalar string when `promoteScalars` is set. -/
def literalToStringArray (node : Node) (promoteScalars : Bool) :
    (Option (List String)) × List PError :=
  match node with
  | .literal tok =>
    if promoteScalars && tok.ty == .strT then (some [tok.svalue], [])
    else (none,
      [newError (posFromNode node) ("Expected list, got " ++ typename node)])
  | .listNode _ elems =>
    let step := fun (acc : List String × List PError) (e : Node) =>
      let ((str, ok), d) := literalToString e
      (if ok then acc.1 ++ [str] else acc.1, acc.2 ++ d)
    let r := elems.foldl step ([], [])
    (some r.1, r.2)
  | _ =>
    (none,
      [newError (posFromNode node) ("Expected list, got " ++ typename node)])

/-- In-place overwrite of a key in an association list (the content side of
a Go map assignment `m[k] = v`). -/
def mapSet (m : List (String × String)) (k v : String) : List (String × String) :=
  match m with
  | [] => [(k, v)]
  | (k0, v0) :: rest =>
    if k0 == k then (k0, v) :: rest else (k0, v0) :: mapSet rest k v

mutual

/-- Go `checkAssignmentsOnly`: every item must be a `key = value` pair;
object-valued assignments are checked recursively. -/
def checkAssignmentsOnly : List ObjItem → String → List PError
  | [], _ => []
  | item :: rest, actionID =>
    checkAssignmentsOnlyItem item actionID ++ checkAssignmentsOnly rest actionID

def checkAssignmentsOnlyItem : ObjItem → String → List PError
  | .mk ks a v, actionID =>
    if isAssignment (.mk ks a v) then
      checkAssignmentsOnlyVal v actionID
    else
      [newError (posFromObjectItem (.mk ks a v))
        ("Each attribute of " ++
          (if actionID == "" then "the object"
            else "action `" ++ actionID ++ "'") ++
          " must be an assignment")]

def checkAssignmentsOnlyVal : Node → String → List PError
  | .object _ child, actionID => checkAssignmentsOnly child actionID
  | _, _ => []

end

/-- Go `literalToStringMap`: an object of string assignments becomes a map;
re-assigned keys warn and overwrite. -/
def literalToStringMap (node : Node) :
    (Option (List (String × String))) × List PError :=
  match node with
  | .object _ items =>
    let d0 := checkAssignmentsOnly items ""
    let step := fun (acc : List (String × String) × List PError) (item : ObjItem) =>
      if isAssignment item then
        let ((str, ok), d1) := literalToString item.val
        if ok then
          let (key, d2) := identString (item.keys.headD {})
          if key ≠ "" then
            let warn := if (acc.1.lookup key).isSome then
                [newWarning (posFromNode node)
                  ("Environment variable `" ++ key ++ "' redefined")]
              else []
            (mapSet acc.1 key str, acc.2 ++ d1 ++ d2 ++ warn)
          else (acc.1, acc.2 ++ d1 ++ d2)
        else (acc.1, acc.2 ++ d1)
      else acc
    let r := items.foldl step ([], d0)
    (some r.1, r.2)
  | _ =>
    (none, [newError (posFromNode node) ("Expected object, got " ++ typename node)])

/-- Go `parseUses`: classify the `uses` value, mutating `action.Uses`. -/
def parseUses (action : Action) (node : Node) : Action × List PError :=
  let d1 := if action.Uses.Path ≠ "" then
      [newWarning (posFromNode node)
        ("`uses' redefined in action `" ++ action.Identifier ++ "'")]
    else []
  let ((strVal, ok), d2) := literalToString node
  if !ok then (action, d1 ++ d2)
  else if strVal == "" then
    (action, d1 ++ d2 ++ [newError (posFromNode node)
      ("`uses' value in action `" ++ action.Identifier ++ "' cannot be blank")])
  else
    let u0 := { action.Uses with Raw := strVal }
    if goHasPrefix strVal "./" then
      ({ action with Uses := { u0 with Path := strVal } }, d1 ++ d2)
    else if goHasPrefix strVal "docker://" then
      ({ action with Uses := { u0 with Image := goDrop strVal 9 } }, d1 ++ d2)
    else
      let tok := goSplitChar strVal '@'
      if tok.length ≠ 2 then
        ({ action with Uses := u0 }, d1 ++ d2 ++ [newError (posFromNode node)
          "The `uses' attribute must be a path, a Docker image, or owner/repo@ref"])
      else
        let ref := tok.getD 1 ""
        let tok2 := splitN3 (tok.getD 0 "") '/'
        if tok2.length < 2 then
          ({ action with Uses := u0 }, d1 ++ d2 ++ [newError (posFromNode node)
            "The `uses' attribute must be a path, a Docker image, or owner/repo@ref"])
        else
          let u1 := { u0 with
            Ref := ref,
            Repo := tok2.getD 0 "" ++ "/" ++ tok2.getD 1 "" }
          let u2 := if tok2.length == 3 then { u1 with Path := "/" ++ tok2.getD 2 "" }
            else { u1 with Path := "/" }
          ({ action with Uses := u2 }, d1 ++ d2)

/-- Go `parseCommand`: fill a `runs`/`args` command from a list or a
whitespace-split string. -/
def parseCommand (action : Action) (dest : ActionCommand) (name : String)
    (node : Node) (allowBlank : Bool) : ActionCommand × List PError :=
  let d1 := if dest.Parsed.length > 0 then
      [newWarning (posFromNode node)
        ("`" ++ name ++ "' redefined in action `" ++ action.Identifier ++ "'")]
    else []
  match node with
  | .listNode p elems =>
    let (parsed?, d2) := literalToStringArray (.listNode p elems) false
    (match parsed? with
      | some parsed => { dest with Parsed := parsed }
      | none => dest,
      d1 ++ d2)
  | n =>
    let ((raw, ok), d2) := literalToString n
    if !ok then
      (dest, d1 ++ d2 ++ [newError (posFromNode n)
        ("The `" ++ name ++ "' attribute must be a string or a list")])
    else if raw == "" && !allowBlank then
      (dest, d1 ++ d2 ++ [newError (posFromNode n)
        ("`" ++ name ++ "' value in action `" ++ action.Identifier ++ "' cannot be blank")])
    else
      ({ dest with Raw := raw, Parsed := goFields raw }, d1 ++ d2)

/-- Go `parseActionAttribute`: dispatch on the attribute name. -/
def parseActionAttribute (name : String) (action : Action) (val : Node) :
    Action × List PError :=
  match name with
  | "uses" => parseUses action val
  | "needs" =>
    let (needs?, d) := literalToStringArray val true
    (match needs? with
      | some needs => { action with Needs := needs, posNeeds := posFromNode val }
      | none => action,
      d)
  | "runs" =>
    let (runs, d) := parseCommand action action.Runs "runs" val false
    ({ action with Runs := runs }, d)
  | "args" =>
    let (args, d) := parseCommand action action.Args "args" val true
    ({ action with Args := args }, d)
  | "env" =>
    let (env?, d) := literalToStringMap val
    (match env? with
      | some env => { action with Env := env, posEnv := posFromNode val }
      | none => { action with posEnv := posFromNode val },
      d)
  | "secrets" =>
    let (secrets?, d) := literalToStringArray val false
    (match secrets? with
      | some secrets =>
        { action with Secrets := secrets, posSecrets := posFromNode val }
      | none => action,
      d)
  | _ =>
    (action, [newWarning (posFromNode val)
      ("Unknown action attribute `" ++ name ++ "'")])

/-- Go `parseIdentifier`: the double-quoted name of an action or workflow
block, taken from the raw token text. -/
def parseIdentifier (key : Token) : String × List PError :=
  let id := key.text
  if id.length < 3 || id.data.headD ' ' ≠ '"' || id.data.getLastD ' ' ≠ '"' then
    ("", [newError (posFromToken key)
      ("Invalid format for identifier `" ++ id ++ "'")])
  else (String.mk ((id.data.drop 1).dropLast), [])

/-- Go `parseRequiredString`: a non-blank string value with a redefinition
warning; returns the (possibly unchanged) value and the success flag. -/
def parseRequiredString (value : String) (val : Node)
    (nodeType name id : String) : (String × Bool) × List PError :=
  let d1 := if value ≠ "" then
      [newWarning (posFromNode val)
        ("`" ++ name ++ "' redefined in " ++ nodeType ++ " `" ++ id ++ "'")]
    else []
  let ((newVal, ok), d2) := literalToString val
  if !ok then
    ((value, false), d1 ++ d2 ++ [newError (posFromNode val)
      ("Invalid format for `" ++ name ++ "' in " ++ nodeType ++ " `" ++ id ++
        "', expected string")])
  else if newVal == "" then
    ((value, false), d1 ++ d2 ++ [newError (posFromNode val)
      ("`" ++ name ++ "' value in " ++ nodeType ++ " `" ++ id ++
        "' cannot be blank")])
  else ((newVal, true), d1 ++ d2)

/-- Go `parseBlockPreamble`: the identifier and the body of an action or
workflow block. -/
def parseBlockPreamble (item : ObjItem) (nodeType : String) :
    (String × Option (List ObjItem)) × List PError :=
  let (id, d1) := parseIdentifier (item.keys.getD 1 {})
  if id == "" then (("", none), d1)
  else
    match item.val with
    | .object _ items =>
      let d2 := checkAssignmentsOnly items id
      ((id, some items), d1 ++ d2)
    | _ =>
      (("", none), d1 ++ [newError (posFromNode item.val)
        ("Each " ++ nodeType ++ " must have an \x7b ...  \x7d block")])

/-- Go `actionifyItem`: an `action "<id>" { … }` block to an `Action`. -/
def actionifyItem (item : ObjItem) : Option Action × List PError :=
  let ((id, obj?), d1) := parseBlockPreamble item "action"
  match obj? with
  | none => (none, d1)
  | some items =>
    let a0 : Action := { Identifier := id, posSelf := posFromItem item }
    let step := fun (acc : Action × List PError) (inner : ObjItem) =>
      let (name, dk) := identString (inner.keys.headD {})
      let (a', da) := parseActionAttribute name acc.1 inner.val
      (a', acc.2 ++ dk ++ da)
    let r := items.foldl step (a0, d1)
    (some r.1, r.2)

/-- Go `workflowifyItem`: a `workflow "<id>" { … }` block to a `Workflow`. -/
def workflowifyItem (item : ObjItem) : Option Workflow × List PError :=
  let ((id, obj?), d1) := parseBlockPreamble item "workflow"
  match obj? with
  | none => (none, d1)
  | some items =>
    let w0 : Workflow := { Identifier := id }
    let step := fun (acc : Workflow × List PError) (inner : ObjItem) =>
      let (name, dk) := identString (inner.keys.headD {})
      match name with
      | "on" =>
        let ((v, ok), d2) := parseRequiredString acc.1.On inner.val "workflow" name id
        let w' := if ok then { acc.1 with On := v, posOn := posFromItem inner }
          else acc.1
        (w', acc.2 ++ dk ++ d2)
      | "resolves" =>
        let dwarn := if acc.1.Resolves.isSome then
            [newWarning (posFromNode inner.val)
              ("`resolves' redefined in workflow `" ++ id ++ "'")]
          else []
        let (res?, d2) := literalToStringArray inner.val true
        let derr := if res?.isNone then
            [newError (posFromNode inner.val)
              ("Invalid format for `resolves' in workflow `" ++ id ++
                "', expected list of strings")]
          else []
        ({ acc.1 with Resolves := res?, posResolves := posFromItem inner },
          acc.2 ++ dk ++ dwarn ++ d2 ++ derr)
      | other =>
        (acc.1, acc.2 ++ dk ++ [newWarning (posFromNode inner.val)
          ("Unknown workflow attribute `" ++ other ++ "'")])
    let r := items.foldl step (w0, d1)
    (some { r.1 with posSelf := posFromItem item }, r.2)

/-- Go `parseVersion`: a `version = N` item, accepted first and with the
single supported value 0. -/
def parseVersion (idx : Nat) (item : ObjItem) (version : Int) :
    Int × List PError :=
  if item.keys.length ≠ 1 then
    (version, [newError (posFromItem item) "Toplevel declarations cannot be assignments"])
  else
    let (name, d0) := identString (item.keys.headD {})
    if name ≠ "version" then
      (version, d0 ++ [newError (posFromItem item) "Toplevel declarations cannot be assignments"])
    else if idx ≠ 0 then
      (version, d0 ++ [newError (posFromItem item) "`version` must be the first declaration"])
    else
      let ((v, ok), d1) := literalToInt item.val
      if !ok then (version, d0 ++ d1)
      else if v < 0 || v > 0 then
        (version, d0 ++ d1 ++ [newError (posFromItem item)
          ("`version = " ++ toString v ++ "` is not supported")])
      else (v, d0 ++ d1)

/-- The accumulating state of `parseRoot` (version, extracted records and
the Go `identifiers` set). -/
structure RootState where
  Version : Int := 0
  Actions : List Action := []
  Workflows : List Workflow := []
  idents : List String := []
deriving DecidableEq

/-- Go map insertion `identifiers[id] = true`, content side. -/
def insertId (l : List String) (id : String) : List String :=
  if l.contains id then l else l ++ [id]

/-- Go `parseBlock`: one top-level `action`/`workflow` block, including the
shared-namespace redefinition check. -/
def parseBlock (item : ObjItem) (st : RootState) : RootState × List PError :=
  if item.keys.length ≠ 2 then
    (st, [newError (posFromItem item) "Invalid toplevel declaration"])
  else
    let (cmd, d0) := identString (item.keys.headD {})
    if cmd == "action" then
      let (act?, d1) := actionifyItem item
      let id := match act? with
        | some a => a.Identifier
        | none => ""
      let st1 := match act? with
        | some a => { st with Actions := st.Actions ++ [a] }
        | none => st
      let d2 := if st1.idents.contains id then
          [newError (posFromItem item) ("Identifier `" ++ id ++ "' redefined")]
        else []
      ({ st1 with idents := insertId st1.idents id }, d0 ++ d1 ++ d2)
    else if cmd == "workflow" then
      let (wf?, d1) := workflowifyItem item
      let id := match wf? with
        | some w => w.Identifier
        | none => ""
      let st1 := match wf? with
        | some w => { st with Workflows := st.Workflows ++ [w] }
        | none => st
      let d2 := if st1.idents.contains id then
          [newError (posFromItem item) ("Identifier `" ++ id ++ "' redefined")]
        else []
      ({ st1 with idents := insertId st1.idents id }, d0 ++ d1 ++ d2)
    else
      (st, d0 ++ [newError (posFromItem item)
        ("Invalid toplevel keyword, `" ++ cmd ++ "'")])

/-- The loop of Go `parseRoot` over the top-level items. -/
def parseItems (idx : Nat) (st : RootState) : List ObjItem → RootState × List PError
  | [] => (st, [])
  | item :: rest =>
    let r1 :=
      if item.assign then
        let (v, d) := parseVersion idx item st.Version
        ({ st with Version := v }, d)
      else parseBlock item st
    let r2 := parseItems (idx + 1) r1.1 rest
    (r2.1, r1.2 ++ r2.2)

/-- Go `parseRoot` (equivalently `parseOnly`): extract a `parseState` from
the root node. -/
def parseRoot (node : Node) : parseState :=
  match node with
  | .objectList items =>
    let (st, ds) := parseItems 0 {} items
    { Version := st.Version, Actions := st.Actions,
      Workflows := st.Workflows, Errors := ds }
  | _ =>
    { Errors := [newError (posFromNode node)
        "Internal error: root node must be an ObjectList"] }

instance : Inhabited Action := ⟨{}⟩

instance : Inhabited Workflow := ⟨{}⟩

/-- The identifier a top-level block checks against the shared namespace,
when `parseBlock` reaches that check (`none` when it rejects the item
before it). -/
def blockId (item : ObjItem) : Option String :=
  if item.keys.length ≠ 2 then none
  else if (identString (item.keys.headD {})).1 == "action" then
    some (match (actionifyItem item).1 with
      | some a => a.Identifier
      | none => "")
  else if (identString (item.keys.headD {})).1 == "workflow" then
    some (match (workflowifyItem item).1 with
      | some w => w.Identifier
      | none => "")
  else none

/-- The diagnostic message Go emits for a redefinition of identifier `x`. -/
def redefMsg (x : String) : String := "Identifier `" ++ x ++ "' redefined"

/-- `e` is the redefinition diagnostic for identifier `x`. -/
def isRedef (x : String) (e : PError) : Bool := e.message == redefMsg x

/-- How many top-level items check identifier `x` against the shared
namespace. -/
def blocksWithId (x : String) (items : List ObjItem) : Nat :=
  items.countP (fun item => !item.assign && blockId item == some x)

/-- The action record a top-level item contributes to the model, if any. -/
def actionOf (item : ObjItem) : Option Action :=
  if item.assign then none
  else if item.keys.length ≠ 2 then none
  else if (identString (item.keys.headD {})).1 == "action" then
    (actionifyItem item).1
  else none

/-- The workflow record a top-level item contributes to the model, if any. -/
def workflowOf (item : ObjItem) : Option Workflow :=
  if item.assign then none
  else if item.keys.length ≠ 2 then none
  else if (identString (item.keys.headD {})).1 == "workflow" then
    (workflowifyItem item).1
  else none

/-- A concrete file holding an action and a workflow both named `a`:
the shared-namespace redefinition scenario. -/
def c5Root : Node :=
  .objectList
    [ .mk [{ pos := { line := 1 }, ty := .identT, text := "action" },
           { pos := { line := 1 }, ty := .strT, text := "\"a\"", svalue := "a" }] false
        (.object { line := 1 }
          [ .mk [{ pos := { line := 1 }, ty := .identT, text := "uses" }] true
              (.literal { pos := { line := 1 }, ty := .strT, svalue := "./x" }) ]),
      .mk [{ pos := { line := 3 }, ty := .identT, text := "workflow" },
           { pos := { line := 3 }, ty := .strT, text := "\"a\"", svalue := "a" }] false
        (.object { line := 3 }
          [ .mk [{ pos := { line := 3 }, ty := .identT, text := "on" }] true
              (.literal { pos := { line := 3 }, ty := .strT, svalue := "push" }) ]) ]

/-- The version-placement diagnostic message. -/
def mustBeFirstMsg : String := "`version` must be the first declaration"

/-- `e` is the version-placement diagnostic. -/
def isMustBeFirst (e : PError) : Bool := e.message == mustBeFirstMsg

/-- The items that reach `parseVersion`'s placement check and fail it:
assignment items whose single key reads `version`, at a nonzero index. -/
def countLaterVersions (idx : Nat) : List ObjItem → Nat
  | [] => 0
  | item :: rest =>
    (if item.assign && item.keys.length == 1 &&
        (identString (item.keys.headD {})).1 == "version" && idx != 0
      then 1 else 0) +
      countLaterVersions (idx + 1) rest

/-- A concrete file with a `version = 0` assignment after an action block. -/
def c6LateRoot : Node :=
  .objectList
    [ .mk [{ pos := { line := 1 }, ty := .identT, text := "action" },
           { pos := { line := 1 }, ty := .strT, text := "\"a\"", svalue := "a" }] false
        (.object { line := 1 }
          [ .mk [{ pos := { line := 1 }, ty := .identT, text := "uses" }] true
              (.literal { pos := { line := 1 }, ty := .strT, svalue := "./foo" }) ]),
      .mk [{ pos := { line := 2 }, ty := .identT, text := "version" }] true
        (.literal { pos := { line := 2 }, ty := .numberT, ivalue := 0 }) ]

/-- A concrete one-item file `version = v`. -/
def c6VersionRoot (v : Int) : Node :=
  .objectList
    [ .mk [{ pos := { line := 1 }, ty := .identT, text := "version" }] true
        (.literal { pos := { line := 1 }, ty := .numberT, ivalue := v }) ]

/-- A concrete file whose single action carries two malformed environment
variable names, so that the per-key scan emits one warning per key. -/
def c2Root : Node :=
  .objectList
    [ .mk [{ pos := { line := 1 }, ty := .identT, text := "action" },
           { pos := { line := 1 }, ty := .strT, text := "\"a\"", svalue := "a" }] false
        (.object { line := 1 }
          [ .mk [{ pos := { line := 1 }, ty := .identT, text := "uses" }] true
              (.literal { pos := { line := 1 }, ty := .strT, svalue := "./x" }),
            .mk [{ pos := { line := 2 }, ty := .identT, text := "env" }] true
              (.object { line := 2 }
                [ .mk [{ pos := { line := 3 }, ty := .strT, text := "\"^\"",
                         svalue := "^" }] true
                    (.literal { pos := { line := 3 }, ty := .strT, svalue := "x" }),
                  .mk [{ pos := { line := 4 }, ty := .strT, text := "\"%\"",
                         svalue := "%" }] true
                    (.literal { pos := { line := 4 }, ty := .strT, svalue := "y" }) ]) ]) ]

/-- One Go-map iteration order for `c2Root`'s env map. -/
def envOrder1 : Nat → List String := fun _ => ["^", "%"]

/-- The other Go-map iteration order for `c2Root`'s env map. -/
def envOrder2 : Nat → List String := fun _ => ["%", "^"]

/-- The final content of Go's `actionmap` from name to node index: built by
ascending iteration with overwrite, so the LAST action with a given name wins. -/
def lookupNI (actions : List Action) (name : String) : Option Nat :=
  (List.range actions.length).foldl
    (fun acc i =>
      if (actions.getD i default).Identifier == name then some i else acc)
    none

/-- The adjacency list `checkCircularDependencies` builds: one node per
action, an edge to each resolvable entry of its needs list. -/
def adjOf (actions : List Action) : List (List Nat) :=
  actions.map (fun a => a.Needs.filterMap (lookupNI actions))

/-- Edge test in an adjacency list. -/
def isEdge (adj : List (List Nat)) (u v : Nat) : Bool :=
  (adj.getD u []).contains v

/-- All consecutive pairs of the list are edges. -/
def chainB (adj : List (List Nat)) : List Nat → Bool
  | [] => true
  | [_] => true
  | a :: b :: t => isEdge adj a b && chainB adj (b :: t)

/-- `c` is the canonical representative of an elementary cycle of `adj`:
nonempty, vertices pairwise distinct, every consecutive pair an edge, the
closing edge back to the head present, and the head is the smallest vertex
on the cycle.  Every elementary cycle (a rotation class of such vertex
sequences) has exactly one representative of this shape. -/
def IsElemCycleRep (adj : List (List Nat)) (c : List Nat) : Prop :=
  c ≠ [] ∧ c.Nodup ∧ (∀ x ∈ c, c.headD 0 ≤ x) ∧
    chainB adj (c ++ [c.headD 0]) = true

instance (adj : List (List Nat)) (c : List Nat) :
    Decidable (IsElemCycleRep adj c) := by
  unfold IsElemCycleRep
  infer_instance

/-- All duplicate-free vertex sequences over `0 … n-1`, each exactly once. -/
def candCycles (n : Nat) : List (List Nat) :=
  (List.range n).sublists.flatMap List.permutations'

/-- Model of the external graph library's `Directed.Cycles` as the source
uses it, per its documented contract: enumerate each elementary cycle of
the graph exactly once (the representative starting at the cycle's
smallest vertex). -/
def elemCycles (adj : List (List Nat)) : List (List Nat) :=
  (candCycles adj.length).filter (fun c => decide (IsElemCycleRep adj c))

/-- Go `checkCircularDependencies`: one FATAL per elementary cycle, naming
the cycle's first action, positioned at the needs attribute of the cycle's
last action. -/
def checkCircularDependencies (actions : List Action) : List PError :=
  (elemCycles (adjOf actions)).map (fun cycle =>
    newFatal (actions.getD (cycle.getLastD 0) default).posNeeds
      ("Circular dependency on `" ++
        (actions.getD (cycle.headD 0) default).Identifier ++ "'"))

/-- Go `analyzeNeeds`: each needs entry must name a declared action. -/
def analyzeNeeds (actions : List Action) (action : Action) : List PError :=
  action.Needs.flatMap (fun need =>
    if actions.any (fun a => a.Identifier == need) then []
    else
      [newError action.posNeeds
        ("Action `" ++ action.Identifier ++ "' needs nonexistent action `" ++
          need ++ "'")])

/-- Go `analyzeDependencies`: existence diagnostics for every declared
needs entry, then order-preserving deduplication of each needs list (the
source skips `uniqStrings` for lists shorter than two entries). -/
def analyzeDependencies (actions : List Action) : List Action × List PError :=
  (actions.map (fun a =>
      if 2 ≤ a.Needs.length then { a with Needs := uniqStrings a.Needs } else a),
    actions.flatMap (analyzeNeeds actions))

/-- The Go regular expression `\A[A-Za-z_][A-Za-z_0-9]*\z`. -/
def envVarOk (key : String) : Bool :=
  match key.data with
  | [] => false
  | c :: cs =>
    (c.isAlpha || c == '_') &&
      cs.all (fun d => d.isAlpha || d.isDigit || d == '_')

/-- Go `checkEnvironmentVariable`: reserved-prefix and legal-name checks. -/
def checkEnvironmentVariable (key : String) (pos : ErrorPos) : List PError :=
  (if key != "GITHUB_TOKEN" && goHasPrefix key "GITHUB_" then
    [newWarning pos
      "Environment variables and secrets beginning with `GITHUB_' are reserved"]
  else []) ++
  (if !envVarOk key then
    [newWarning pos
      ("Environment variables and secrets must contain only A-Z, a-z, 0-9, and _ characters, got `" ++
        key ++ "'")]
  else [])

/-- The first secrets loop of Go `checkActions`: grow the global distinct
secret set, emitting the ceiling ERROR exactly when the set reaches 101. -/
def ceilingScan (pos : ErrorPos) : List String → List String →
    List PError × List String
  | [], seen => ([], seen)
  | s :: rest, seen =>
    if seen.contains s then ceilingScan pos rest seen
    else
      let seen' := seen ++ [s]
      let d := if seen'.length == 101 then
          [newError pos
            "All actions combined must not have more than 100 unique secrets"]
        else []
      let r := ceilingScan pos rest seen'
      (d ++ r.1, r.2)

/-- The second secrets loop of Go `checkActions`: name checks, env
collisions and within-action redefinitions. -/
def secretsScan (action : Action) : List String → List String → List PError
  | [], _ => []
  | k :: rest, sv =>
    checkEnvironmentVariable k action.posSecrets ++
    (if (action.Env.lookup k).isSome then
      [newError action.posSecrets
        ("Secret `" ++ k ++
          "' conflicts with an environment variable with the same name")]
    else []) ++
    (if sv.contains k then
      [newWarning action.posSecrets ("Secret `" ++ k ++ "' redefined")]
    else []) ++
    secretsScan action rest (insertId sv k)

/-- The per-action body of Go `checkActions`.  `o i` is the order in which
Go's randomized `for k := range t.Env` visits the env keys of action `i`:
the source's only map-range loop, made an explicit parameter here. -/
def checkActionsFrom (o : Nat → List String) :
    Nat → List String → List Action → List PError
  | _, _, [] => []
  | i, secrets, t :: rest =>
    let dUses := if t.Uses.Raw == "" then
        [newError t.posSelf
          ("Action `" ++ t.Identifier ++ "' must have a `uses' attribute")]
      else []
    let rCeil := ceilingScan t.posSecrets t.Secrets secrets
    let dEnv := (o i).flatMap (fun k => checkEnvironmentVariable k t.posEnv)
    let dSec := secretsScan t t.Secrets []
    dUses ++ rCeil.1 ++ dEnv ++ dSec ++ checkActionsFrom o (i + 1) rCeil.2 rest

/-- Go `checkActions`. -/
def checkActions (actions : List Action) (o : Nat → List String) : List PError :=
  checkActionsFrom o 0 [] actions

/-- Modelled from the spec: `model.IsAllowedEventType` is not among the
provided repository files; the spec says the `on` value "must be one of a
fixed allow-list of event-type names (case-insensitive)".  The exact list
contents do not matter to any claim settled here. -/
def IsAllowedEventType (s : String) : Bool :=
  ["push", "pull_request"].contains (goToLower s)

/-- Go `checkFlows`: required `on`, allowed event type, resolvable goals. -/
def checkFlows (workflows : List Workflow) (actions : List Action) : List PError :=
  workflows.flatMap (fun f =>
    (if f.On == "" then
      [newError f.posSelf
        ("Workflow `" ++ f.Identifier ++ "' must have an `on' attribute")]
    else if !IsAllowedEventType f.On then
      [newError f.posOn
        ("Workflow `" ++ f.Identifier ++ "' has unknown `on' value `" ++
          f.On ++ "'")]
    else []) ++
    (f.Resolves.getD []).flatMap (fun actionID =>
      if actions.any (fun a => a.Identifier == actionID) then []
      else
        [newError f.posResolves
          ("Workflow `" ++ f.Identifier ++ "' resolves unknown action `" ++
            actionID ++ "'")]))

/-- Stable insertion of a diagnostic behind all entries with a line number
not larger than its own. -/
def insertByLine (e : PError) : List PError → List PError
  | [] => [e]
  | f :: rest =>
    if f.pos.line < e.pos.line then f :: insertByLine e rest
    else e :: f :: rest

/-- Go `ErrorList.sort`: `sort.Stable(byLineNumber(...))`, a stable sort
comparing only the line number. -/
def sortErrors : List PError → List PError
  | [] => []
  | e :: rest => insertByLine e (sortErrors rest)

/-- Go `parseState.validate`: dependency analysis, cycle check, action
checks, workflow checks, in source order. -/
def validateWith (o : Nat → List String) (ps : parseState) : parseState :=
  let r := analyzeDependencies ps.Actions
  let d₂ := checkCircularDependencies r.1
  let d₃ := checkActions r.1 o
  let d₄ := checkFlows ps.Workflows r.1
  { ps with Actions := r.1, Errors := ps.Errors ++ r.2 ++ d₂ ++ d₃ ++ d₄ }

/-- Go `parseAndValidate`: parse, validate, sort the diagnostics. -/
def parseAndValidate (o : Nat → List String) (root : Node) : parseState :=
  let ps := validateWith o (parseRoot root)
  { ps with Errors := sortErrors ps.Errors }

/-- `o` is a legal env iteration order for the extracted actions: for each
action, a permutation of its env keys. -/
def ValidEnvOrder (o : Nat → List String) (ps : parseState) : Prop :=
  ∀ i, i < ps.Actions.length →
    List.Perm (o i) ((ps.Actions.getD i default).Env.map Prod.fst)

/-- Outcome of the external `hcl.ParseBytes` call: success, a `PosError`,
or another error. -/
inductive HclResult where
  | ok (root : Node)
  | posErr (file : String) (line col : Nat) (msg : String)
  | otherErr (msg : String)

/-- Go `Parse`: the entry point.  `hclParse` stands for the external HCL
reader, `readRes` for the result of `ioutil.ReadAll` (its `.error` case is
an I/O failure).  Returns (configuration, diagnostics, Go error). -/
def Parse (hclParse : String → HclResult) (o : Nat → List String) :
    Except String String → Option Configuration × List PError × Option String
  | .error e => (none, [], some e)
  | .ok b =>
    match hclParse b with
    | .posErr f l c m => (some {}, [newError ⟨f, l, c⟩ m], none)
    | .otherErr m => (some {}, [newError {} m], none)
    | .ok root =>
      let ps := parseAndValidate o root
      (some ⟨ps.Version, ps.Actions, ps.Workflows⟩, ps.Errors, none)

/-- The cross-repo decomposition as the code performs it, for a value with
neither recognized form: the value must contain exactly one `@` (the code
splits on every `@` and demands exactly two pieces), and the part before
it two or three `/`-separated components.  The `Bool` is true when the
"must be a path, a Docker image, or owner/repo@ref" ERROR is emitted and
the value stays unrecognized. -/
def crossRepoSpec (s : String) : Uses × Bool :=
  match goSplitChar s '@' with
  | [l, r] =>
    match splitN3 l '/' with
    | [c1, c2] => ({ Repo := c1 ++ "/" ++ c2, Path := "/", Ref := r, Raw := s }, false)
    | [c1, c2, c3] =>
      ({ Repo := c1 ++ "/" ++ c2, Path := "/" ++ c3, Ref := r, Raw := s }, false)
    | _ => ({ Raw := s }, true)
  | _ => ({ Raw := s }, true)

/-- The same decomposition acting on an arbitrary prior `Uses` value: the
fields of the recognized form are written over `u`, the others are left as
they were (this is exactly what the Go assignments do). -/
def crossRepoUpdate (u : Uses) (s : String) : Uses × Bool :=
  match goSplitChar s '@' with
  | [l, r] =>
    match splitN3 l '/' with
    | [c1, c2] =>
      ({ u with Repo := c1 ++ "/" ++ c2, Path := "/", Ref := r, Raw := s }, false)
    | [c1, c2, c3] =>
      ({ u with Repo := c1 ++ "/" ++ c2, Path := "/" ++ c3, Ref := r, Raw := s }, false)
    | _ => ({ u with Raw := s }, true)
  | _ => ({ u with Raw := s }, true)

/-- A concrete file (two actions, the first with a duplicated needs
entry), used by witnesses. -/
def dedupRoot : Node :=
  .objectList
    [ .mk [{ pos := { line := 1 }, ty := .identT, text := "action" },
           { pos := { line := 1 }, ty := .strT, text := "\"a\"", svalue := "a" }] false
        (.object { line := 1 }
          [ .mk [{ pos := { line := 1 }, ty := .identT, text := "uses" }] true
              (.literal { pos := { line := 1 }, ty := .strT, svalue := "./x" }),
            .mk [{ pos := { line := 2 }, ty := .identT, text := "needs" }] true
              (.listNode { line := 2 }
                [ .literal { pos := { line := 2 }, ty := .strT, svalue := "b" },
                  .literal { pos := { line := 2 }, ty := .strT, svalue := "a" },
                  .literal { pos := { line := 2 }, ty := .strT, svalue := "b" } ]) ]),
      .mk [{ pos := { line := 3 }, ty := .identT, text := "action" },
           { pos := { line := 3 }, ty := .strT, text := "\"b\"", svalue := "b" }] false
        (.object { line := 3 }
          [ .mk [{ pos := { line := 3 }, ty := .identT, text := "uses" }] true
              (.literal { pos := { line := 3 }, ty := .strT, svalue := "./y" }) ]) ]

/-- The ceiling diagnostic's message. -/
def ceilingMsg : String :=
  "All actions combined must not have more than 100 unique secrets"

/-- The secret-ceiling ERROR, recognized by severity and message. -/
def isCeilingErr (e : PError) : Bool :=
  e.severity == Severity.error && e.message == ceilingMsg

/-- The first two characters of a diagnostic's message. -/
def tag2 (e : PError) : List Char := e.message.data.take 2

/-- Tags of every message emitted inside action/workflow blocks. -/
def blockTags : List (List Char) :=
  [['E', 'a'], ['E', 'x'], ['E', 'n'], ['U', 'n'], ['I', 'n'], ['T', 'h'],
   ['`', 'u'], ['`', 'o'], ['`', 'r'], ['`', 'a']]

/-!
### Generic helper lemmas
-/

theorem data_append (s t : String) : (s ++ t).data = s.data ++ t.data := rfl

theorem take2_append {p : String} (x : String) (h : 2 ≤ p.length) :
    ((p ++ x).data.take 2) = p.data.take 2 := by
  rw [data_append]
  exact List.take_append_of_le_length h

theorem msg_ne_of_take2 {p q : String} (x y : String)
    (h : p.data.take 2 ≠ q.data.take 2) (hp : 2 ≤ p.length) (hq : 2 ≤ q.length) :
    p ++ x ≠ q ++ y := by
  intro he
  apply h
  rw [← take2_append x hp, ← take2_append y hq, he]

/-!
### C10: the Parse entry point's error contract
-/

/-- C10: when the underlying HCL reader fails, `Parse` returns a nil Go
error, a non-nil empty `Configuration` and exactly one diagnostic; a
non-nil Go error arises exactly from a read (I/O) failure. -/
theorem Parse_hcl_failure (hclParse : String → HclResult) (o : Nat → List String) :
    (∀ b f l c m, hclParse b = .posErr f l c m →
      Parse hclParse o (.ok b) =
        (some {}, [newError { file := f, line := l, column := c } m], none)) ∧
    (∀ b m, hclParse b = .otherErr m →
      Parse hclParse o (.ok b) = (some {}, [newError {} m], none)) ∧
    (∀ r, (Parse hclParse o r).2.2 ≠ none ↔ ∃ e, r = Except.error e) := by
  refine ⟨?_, ?_, ?_⟩
  · intro b f l c m h
    simp [Parse, h]
  · intro b m h
    simp [Parse, h]
  · intro r
    cases r with
    | error e => simp [Parse]
    | ok b => cases h : hclParse b <;> simp [Parse, h]

/-- Witness for C10 at a concrete failing HCL result. -/
theorem Parse_hcl_failure_witness :
    Parse (fun _ => HclResult.posErr "f" 3 1 "boom") (fun _ => []) (Except.ok "x") =
      (some {}, [newError { file := "f", line := 3, column := 1 } "boom"], none) :=
  (Parse_hcl_failure (fun _ => HclResult.posErr "f" 3 1 "boom") (fun _ => [])).1
    "x" "f" 3 1 "boom" rfl

/-!
### The uses parser: evaluation helpers shared by C3, C8 and C9
-/


theorem splitN3_length_le (s : String) (c : Char) : (splitN3 s c).length ≤ 3 := by
  by_cases h : (splitOnPred (fun a => a == c) s.data).length ≤ 3 <;> simp [splitN3, h]


theorem crossRepoUpdate_default (s : String) :
    crossRepoUpdate {} s = crossRepoSpec s := by
  unfold crossRepoUpdate crossRepoSpec
  split <;> (try split) <;> rfl

theorem crossRepoUpdate_raw (u : Uses) (s : String) :
    ((crossRepoUpdate u s).1).Raw = s := by
  unfold crossRepoUpdate
  split <;> (try split) <;> rfl

theorem parseUses_general_eval (action : Action) (s : String) (pos : ErrorPos)
    (hb : s ≠ "") (hp : goHasPrefix s "./" = false)
    (hd : goHasPrefix s "docker://" = false) :
    parseUses action (.literal { pos := pos, ty := .strT, svalue := s }) =
      ({ action with Uses := (crossRepoUpdate action.Uses s).1 },
        (if action.Uses.Path == "" then []
          else [newWarning pos
            ("`uses' redefined in action `" ++ action.Identifier ++ "'")]) ++
        (if (crossRepoUpdate action.Uses s).2 then
          [newError pos
            "The `uses' attribute must be a path, a Docker image, or owner/repo@ref"]
          else [])) := by
  have h0 : (s == "") = false := by simp [hb]
  cases hsp : goSplitChar s '@' with
  | nil =>
    by_cases hpath : action.Uses.Path = "" <;>
      simp [parseUses, literalToString, crossRepoUpdate, posFromNode, h0, hp, hd, hsp, hpath]
  | cons l tl =>
    cases tl with
    | nil =>
      by_cases hpath : action.Uses.Path = "" <;>
        simp [parseUses, literalToString, crossRepoUpdate, posFromNode, h0, hp, hd, hsp, hpath]
    | cons r tl2 =>
      cases tl2 with
      | cons x tl3 =>
        by_cases hpath : action.Uses.Path = "" <;>
          simp [parseUses, literalToString, crossRepoUpdate, posFromNode, h0, hp, hd, hsp, hpath]
      | nil =>
        have h3 := splitN3_length_le l '/'
        cases hsp2 : splitN3 l '/' with
        | nil =>
          by_cases hpath : action.Uses.Path = "" <;>
            simp [parseUses, literalToString, crossRepoUpdate, posFromNode, h0, hp, hd, hsp,
              hsp2, hpath]
        | cons c1 t1 =>
          cases t1 with
          | nil =>
            by_cases hpath : action.Uses.Path = "" <;>
              simp [parseUses, literalToString, crossRepoUpdate, posFromNode, h0, hp, hd, hsp,
                hsp2, hpath]
          | cons c2 t2 =>
            cases t2 with
            | nil =>
              by_cases hpath : action.Uses.Path = "" <;>
                simp [parseUses, literalToString, crossRepoUpdate, posFromNode, h0, hp, hd, hsp,
                  hsp2, hpath, List.getD]
            | cons c3 t3 =>
              cases t3 with
              | nil =>
                by_cases hpath : action.Uses.Path = "" <;>
                  simp [parseUses, literalToString, crossRepoUpdate, posFromNode, h0, hp, hd,
                    hsp, hsp2, hpath, List.getD]
              | cons c4 t4 =>
                rw [hsp2] at h3
                simp at h3

theorem parseUses_fresh_eval (id s : String) (pos : ErrorPos)
    (hb : s ≠ "") (hp : goHasPrefix s "./" = false)
    (hd : goHasPrefix s "docker://" = false) :
    parseUses { Identifier := id } (.literal { pos := pos, ty := .strT, svalue := s }) =
      ({ Identifier := id, Uses := (crossRepoSpec s).1 },
        if (crossRepoSpec s).2 then
          [newError pos
            "The `uses' attribute must be a path, a Docker image, or owner/repo@ref"]
        else []) := by
  rw [parseUses_general_eval { Identifier := id } s pos hb hp hd]
  rw [show ({ Identifier := id } : Action).Uses = ({} : Uses) from rfl,
    crossRepoUpdate_default]
  simp

theorem parseUses_inrepo_eval (action : Action) (s : String) (pos : ErrorPos)
    (hp : goHasPrefix s "./" = true) :
    parseUses action (.literal { pos := pos, ty := .strT, svalue := s }) =
      ({ action with Uses := { action.Uses with Raw := s, Path := s } },
        if action.Uses.Path == "" then []
        else [newWarning pos
          ("`uses' redefined in action `" ++ action.Identifier ++ "'")]) := by
  have hb : (s == "") = false := by
    rcases eq_or_ne s "" with h | h
    · subst h
      exact absurd hp (by decide)
    · simp [h]
  simp only [parseUses, literalToString]
  by_cases hpath : action.Uses.Path = ""
  · simp [hb, hp, hpath, posFromNode]
  · simp [hb, hp, hpath, posFromNode]

theorem parseUses_docker_eval (action : Action) (s : String) (pos : ErrorPos)
    (hp : goHasPrefix s "./" = false) (hd : goHasPrefix s "docker://" = true) :
    parseUses action (.literal { pos := pos, ty := .strT, svalue := s }) =
      ({ action with Uses := { action.Uses with Raw := s, Image := goDrop s 9 } },
        if action.Uses.Path == "" then []
        else [newWarning pos
          ("`uses' redefined in action `" ++ action.Identifier ++ "'")]) := by
  have hb : (s == "") = false := by
    rcases eq_or_ne s "" with h | h
    · subst h
      exact absurd hd (by decide)
    · simp [h]
  simp only [parseUses, literalToString]
  by_cases hpath : action.Uses.Path = ""
  · simp [hb, hp, hd, hpath, posFromNode]
  · simp [hb, hp, hd, hpath, posFromNode]

/-!
### C3: classification of cross-repo uses values
-/

/-- C3 counterexample: on `"a/b@c@d"` the claim's rule (split once on the
LAST `@`) predicts a successful CrossRepo result with repository
`"a/b@c"` and no diagnostic; the code splits on every `@`, rejects the
three pieces, leaves the value unrecognized and emits the ERROR. -/
theorem parseUses_two_ats_counterexample :
    (parseUses { Identifier := "a" } (.literal { ty := .strT, svalue := "a/b@c@d" }) =
      ({ Identifier := "a", Uses := { Raw := "a/b@c@d" } },
        [newError {}
          "The `uses' attribute must be a path, a Docker image, or owner/repo@ref"])) ∧
    ¬ ((parseUses { Identifier := "a" }
          (.literal { ty := .strT, svalue := "a/b@c@d" })).1.Uses.Repo = "a/b@c" ∧
        (parseUses { Identifier := "a" }
          (.literal { ty := .strT, svalue := "a/b@c@d" })).2 = []) := by
  constructor
  · decide
  · decide

/-- C3 amended: for a non-blank value in neither the `./` nor the
`docker://` form, the parser requires EXACTLY ONE `@` (it splits on every
`@` and any other number of pieces is rejected), then 2 or 3
`/`-components on the left: success yields CrossRepo with `ref` the right
side, `repository` the first two components, `path` `/subpath` (even for
an empty third component, where it degenerates to `/`) or `/`; otherwise
the value stays unrecognized, `Raw` is still recorded, and exactly the one
ERROR is emitted. -/
theorem parseUses_crossRepo_contract (id s : String) (pos : ErrorPos)
    (hb : s ≠ "") (hp : goHasPrefix s "./" = false)
    (hd : goHasPrefix s "docker://" = false) :
    parseUses { Identifier := id } (.literal { pos := pos, ty := .strT, svalue := s }) =
      ({ Identifier := id, Uses := (crossRepoSpec s).1 },
        if (crossRepoSpec s).2 then
          [newError pos
            "The `uses' attribute must be a path, a Docker image, or owner/repo@ref"]
        else []) :=
  parseUses_fresh_eval id s pos hb hp hd

/-!
### C8: redefinition of `uses` within one action
-/

/-- C8 counterexample: after a first `uses` value in the docker form, a
second `uses` occurrence emits NO warning (the source warns only when the
previous classification left `Path` non-empty, which docker and
unrecognized classifications never do), and the later value does not
replace the earlier classification's fields: the stale `Image` survives
next to the new `Path`.  The claim predicts a WARNING and a full
overwrite regardless of the first classification. -/
theorem parseUses_redefinition_counterexample :
    parseUses
        ((parseUses { Identifier := "a" }
          (.literal { pos := { line := 1 }, ty := .strT, svalue := "docker://alpine" })).1)
        (.literal { pos := { line := 2 }, ty := .strT, svalue := "./x" }) =
      ({ Identifier := "a",
         Uses := { Path := "./x", Image := "alpine", Raw := "./x" } }, []) := by
  decide

/-- C8 amended: a second string-valued `uses` occurrence produces the
redefinition WARNING exactly when the earlier value left a non-empty
`Path` (the in-repo and cross-repo classifications); the later value
always overwrites `Raw` and sets the fields of its own classification,
leaving every other field of the earlier classification in place. -/
theorem parseUses_redefinition_contract (action : Action) (pos : ErrorPos) (s : String) :
    ((parseUses action (.literal { pos := pos, ty := .strT, svalue := s })).2.countP
        (fun e => e.severity == Severity.warning) =
      if action.Uses.Path == "" then 0 else 1) ∧
    (s ≠ "" →
      (parseUses action (.literal { pos := pos, ty := .strT, svalue := s })).1.Uses.Raw = s) ∧
    (goHasPrefix s "./" = true →
      (parseUses action (.literal { pos := pos, ty := .strT, svalue := s })).1 =
        { action with Uses := { action.Uses with Raw := s, Path := s } }) ∧
    (goHasPrefix s "./" = false → goHasPrefix s "docker://" = true →
      (parseUses action (.literal { pos := pos, ty := .strT, svalue := s })).1 =
        { action with Uses := { action.Uses with Raw := s, Image := goDrop s 9 } }) := by
  refine ⟨?_, ?_, ?_, ?_⟩
  · by_cases hp : goHasPrefix s "./" = true
    · rw [parseUses_inrepo_eval action s pos hp]
      by_cases hpath : action.Uses.Path = "" <;> simp [hpath, newWarning]
    · by_cases hd : goHasPrefix s "docker://" = true
      · rw [parseUses_docker_eval action s pos (by simpa using hp) hd]
        by_cases hpath : action.Uses.Path = "" <;> simp [hpath, newWarning]
      · by_cases hb : s = ""
        · subst hb
          by_cases hpath : action.Uses.Path = "" <;>
            simp [parseUses, literalToString, hpath, newWarning, newError]
        · rw [parseUses_general_eval action s pos hb (by simpa using hp) (by simpa using hd)]
          by_cases hpath : action.Uses.Path = "" <;>
            cases hcr : (crossRepoUpdate action.Uses s).2 <;>
              simp [hpath, hcr, newWarning, newError]
  · intro hb
    by_cases hp : goHasPrefix s "./" = true
    · rw [parseUses_inrepo_eval action s pos hp]
    · by_cases hd : goHasPrefix s "docker://" = true
      · rw [parseUses_docker_eval action s pos (by simpa using hp) hd]
      · rw [parseUses_general_eval action s pos hb (by simpa using hp) (by simpa using hd)]
        exact crossRepoUpdate_raw action.Uses s
  · intro hp
    rw [parseUses_inrepo_eval action s pos hp]
  · intro hp hd
    rw [parseUses_docker_eval action s pos hp hd]

/-- Witness for C8: a second `uses` after an in-repo first value warns
exactly once and the fields are updated as the amended claim states. -/
theorem parseUses_redefinition_contract_witness :
    ((parseUses { Identifier := "a", Uses := { Path := "./x", Raw := "./x" } }
        (.literal { pos := {}, ty := .strT, svalue := "./y" })).2.countP
        (fun e => e.severity == Severity.warning) = 1) ∧
    (parseUses { Identifier := "a", Uses := { Path := "./x", Raw := "./x" } }
        (.literal { pos := {}, ty := .strT, svalue := "./y" })).1 =
      { Identifier := "a", Uses := { Path := "./y", Raw := "./y" } } := by
  have h := parseUses_redefinition_contract
    { Identifier := "a", Uses := { Path := "./x", Raw := "./x" } } {} "./y"
  exact ⟨h.1.trans (by decide), (h.2.2.1 (by decide)).trans (by decide)⟩

/-!
### C9: idempotence of the uses parser on the retained raw string
-/

/-- C9: when parsing a `uses` string produced no diagnostics, feeding the
retained `Raw` string back through the parser reproduces the same `Uses`
value, again without diagnostics (and independently of the position the
value is read at). -/
theorem parseUses_idempotent (id s : String) (pos pos' : ErrorPos)
    (h : (parseUses { Identifier := id }
        (.literal { pos := pos, ty := .strT, svalue := s })).2 = []) :
    parseUses { Identifier := id }
        (.literal { pos := pos', ty := .strT,
                    svalue := (parseUses { Identifier := id }
                      (.literal { pos := pos, ty := .strT, svalue := s })).1.Uses.Raw }) =
      ((parseUses { Identifier := id }
        (.literal { pos := pos, ty := .strT, svalue := s })).1, []) := by
  by_cases hp : goHasPrefix s "./" = true
  · rw [parseUses_inrepo_eval { Identifier := id } s pos hp]
    simp only
    rw [parseUses_inrepo_eval _ s pos' hp]
    simp
  · by_cases hd : goHasPrefix s "docker://" = true
    · rw [parseUses_docker_eval { Identifier := id } s pos (by simpa using hp) hd]
      simp only
      rw [parseUses_docker_eval _ s pos' (by simpa using hp) hd]
      simp
    · by_cases hb : s = ""
      · subst hb
        simp [parseUses, literalToString] at h
      · have hgen := parseUses_fresh_eval id s pos hb (by simpa using hp) (by simpa using hd)
        rw [hgen] at h ⊢
        have hflag : (crossRepoSpec s).2 = false := by
          cases hflag : (crossRepoSpec s).2
          · rfl
          · rw [hflag] at h
            simp at h
        have hraw : ((crossRepoSpec s).1).Raw = s := by
          rw [← crossRepoUpdate_default]
          exact crossRepoUpdate_raw {} s
        simp only [hraw, hflag]
        rw [parseUses_fresh_eval id s pos' hb (by simpa using hp) (by simpa using hd), hflag]
        simp

/-- Witness for C9 at `foo/bar@dev`, re-read at a different position. -/
theorem parseUses_idempotent_witness :
    parseUses { Identifier := "a" }
        (.literal { pos := { line := 2 }, ty := .strT,
                    svalue := (parseUses { Identifier := "a" }
                      (.literal { pos := { line := 1 }, ty := .strT,
                                  svalue := "foo/bar@dev" })).1.Uses.Raw }) =
      ((parseUses { Identifier := "a" }
        (.literal { pos := { line := 1 }, ty := .strT, svalue := "foo/bar@dev" })).1,
        []) :=
  parseUses_idempotent "a" "foo/bar@dev" { line := 1 } { line := 2 } (by decide)

/-- Witness for C3 at the spec's own scenario `foo/bar@dev`. -/
theorem parseUses_crossRepo_contract_witness :
    parseUses { Identifier := "a" } (.literal { ty := .strT, svalue := "foo/bar@dev" }) =
      ({ Identifier := "a",
         Uses := { Repo := "foo/bar", Path := "/", Ref := "dev", Raw := "foo/bar@dev" } },
        []) := by
  have h := parseUses_crossRepo_contract "a" "foo/bar@dev" {}
    (by decide) (by decide) (by decide)
  exact h.trans (by decide)

/-!
### C7: needs lists are deduplicated, order-preservingly
-/

theorem mem_specDedup {x : String} : ∀ {l : List String}, x ∈ specDedup l → x ∈ l := by
  intro l
  induction l with
  | nil => simp [specDedup]
  | cons a t ih =>
    intro hx
    rcases List.mem_cons.mp hx with h | h
    · exact h ▸ List.mem_cons_self _ _
    · exact List.mem_cons_of_mem _ (ih (List.mem_of_mem_filter h))

theorem specDedup_nodup : ∀ (l : List String), (specDedup l).Nodup := by
  intro l
  induction l with
  | nil => simp [specDedup]
  | cons a t ih =>
    refine List.nodup_cons.mpr ⟨fun h => ?_, List.Nodup.filter _ ih⟩
    simp [List.mem_filter] at h

theorem specDedup_short (l : List String) (h : l.length < 2) : specDedup l = l := by
  match l, h with
  | [], _ => rfl
  | [x], _ => rfl

theorem uniqStrings_go_eq_specDedup (l : List String) :
    ∀ seen, uniqStrings.go seen l =
      (specDedup l).filter (fun x => !seen.contains x) := by
  induction l with
  | nil =>
    intro seen
    simp [uniqStrings.go, specDedup]
  | cons a t ih =>
    intro seen
    by_cases h : a ∈ seen
    · rw [uniqStrings.go, if_pos h, ih seen]
      show _ = List.filter _ (a :: List.filter _ (specDedup t))
      rw [List.filter_cons, if_neg (by simp [h]), List.filter_filter]
      apply List.filter_congr
      intro x _
      by_cases hx : x = a
      · subst hx
        simp [h]
      · simp [hx]
    · rw [uniqStrings.go, if_neg h, ih (a :: seen)]
      show _ = List.filter _ (a :: List.filter _ (specDedup t))
      rw [List.filter_cons, if_pos (by simp [h]), List.filter_filter]
      congr 1
      apply List.filter_congr
      intro x _
      by_cases hx : x = a
      · subst hx
        simp
      · simp [hx]

theorem uniqStrings_eq_specDedup (l : List String) : uniqStrings l = specDedup l := by
  rw [uniqStrings, uniqStrings_go_eq_specDedup]
  simp

/-- C7: every action in the returned model carries the order-preserving
first-occurrence deduplication of its declared needs list — no duplicate
entries remain — and the code's `uniqStrings` coincides with the spec-side
first-occurrence deduplication `specDedup` on every list. -/
theorem needs_deduplicated (root : Node) (o : Nat → List String) :
    ((parseAndValidate o root).Actions =
      (parseRoot root).Actions.map (fun a => { a with Needs := specDedup a.Needs })) ∧
    (∀ a ∈ (parseAndValidate o root).Actions, a.Needs.Nodup) ∧
    (∀ l : List String, uniqStrings l = specDedup l) := by
  have hmap : (parseAndValidate o root).Actions =
      (parseRoot root).Actions.map (fun a => { a with Needs := specDedup a.Needs }) := by
    show (validateWith o (parseRoot root)).Actions = _
    simp only [validateWith, analyzeDependencies]
    congr 1
    funext a
    by_cases hlen : 2 ≤ a.Needs.length
    · simp [hlen, uniqStrings_eq_specDedup]
    · rw [if_neg hlen, specDedup_short a.Needs (by omega)]
  refine ⟨hmap, ?_, uniqStrings_eq_specDedup⟩
  intro a ha
  rw [hmap] at ha
  obtain ⟨b, _, rfl⟩ := List.mem_map.mp ha
  exact specDedup_nodup _


/-- Witness for C7: the dedup equations evaluated on the concrete file. -/
theorem needs_deduplicated_witness :
    (uniqStrings ["b", "a", "b"] = specDedup ["b", "a", "b"]) ∧
    (specDedup ["b", "a", "b"] = ["b", "a"]) ∧
    ((parseAndValidate (fun _ => []) dedupRoot).Actions =
      (parseRoot dedupRoot).Actions.map (fun a => { a with Needs := specDedup a.Needs })) ∧
    ((parseAndValidate (fun _ => []) dedupRoot).Actions.map (fun a => a.Needs) =
      [["b", "a"], []]) :=
  ⟨(needs_deduplicated dedupRoot (fun _ => [])).2.2 ["b", "a", "b"], by decide,
    (needs_deduplicated dedupRoot (fun _ => [])).1, by decide⟩

/-!
### C4: the global secret ceiling
-/



theorem msg2_ne (p m r : String) (h : p.data.take 2 ≠ r.data.take 2)
    (hp : 2 ≤ p.length) (hr : 2 ≤ r.length) : p ++ m ≠ r := by
  have := msg_ne_of_take2 (p := p) (q := r) m "" h hp hr
  simpa using this

theorem msg3_ne (p m q r : String) (h : p.data.take 2 ≠ r.data.take 2)
    (hp : 2 ≤ p.length) (hr : 2 ≤ r.length) : p ++ m ++ q ≠ r := by
  rw [String.append_assoc]
  exact msg2_ne p (m ++ q) r h hp hr

theorem countP_ceiling_envVar (k : String) (pos : ErrorPos) :
    (checkEnvironmentVariable k pos).countP isCeilingErr = 0 := by
  unfold checkEnvironmentVariable
  split <;> split <;>
    simp [isCeilingErr, newWarning, List.countP_cons, List.countP_nil, List.countP_append]

theorem countP_ceiling_env (keys : List String) (pos : ErrorPos) :
    ((keys.flatMap (fun k => checkEnvironmentVariable k pos)).countP isCeilingErr) = 0 := by
  induction keys with
  | nil => rfl
  | cons k rest ih =>
    simp only [List.flatMap_cons, List.countP_append, ih, countP_ceiling_envVar]

theorem countP_ceiling_secretsScan (t : Action) :
    ∀ (l sv : List String), ((secretsScan t l sv).countP isCeilingErr) = 0 := by
  intro l
  induction l with
  | nil => intro sv; rfl
  | cons k rest ih =>
    intro sv
    have hconf : ("Secret `" ++ k ++
        "' conflicts with an environment variable with the same name") ≠ ceilingMsg :=
      msg3_ne _ _ _ _ (by decide) (by decide) (by decide)
    have hredef : ("Secret `" ++ k ++ "' redefined") ≠ ceilingMsg :=
      msg3_ne _ _ _ _ (by decide) (by decide) (by decide)
    simp only [secretsScan, List.countP_append, countP_ceiling_envVar, ih]
    split <;> split <;>
      simp [isCeilingErr, newError, newWarning, List.countP_cons, List.countP_nil,
        hconf, hredef]

theorem countP_ceiling_uses (t : Action) :
    ((if t.Uses.Raw == "" then
        [newError t.posSelf
          ("Action `" ++ t.Identifier ++ "' must have a `uses' attribute")]
      else []).countP isCeilingErr) = 0 := by
  have h : ("Action `" ++ t.Identifier ++ "' must have a `uses' attribute") ≠ ceilingMsg :=
    msg3_ne _ _ _ _ (by decide) (by decide) (by decide)
  split <;>
    simp [isCeilingErr, newError, List.countP_cons, List.countP_nil, h]

theorem ceilingScan_snd (pos : ErrorPos) :
    ∀ (strs seen : List String),
      (ceilingScan pos strs seen).2 = strs.foldl insertId seen := by
  intro strs
  induction strs with
  | nil => intro seen; rfl
  | cons s rest ih =>
    intro seen
    simp only [ceilingScan, List.foldl_cons]
    by_cases h : seen.contains s
    · have hm : s ∈ seen := by simpa using h
      rw [if_pos h, ih seen]
      simp only [show insertId seen s = seen from by simp [insertId, hm]]
    · have hm : s ∉ seen := by simpa using h
      rw [if_neg h]
      simp only
      rw [ih (seen ++ [s])]
      simp only [show insertId seen s = seen ++ [s] from by simp [insertId, hm]]

theorem foldl_insertId_mono : ∀ (strs seen : List String),
    seen.length ≤ (strs.foldl insertId seen).length := by
  intro strs
  induction strs with
  | nil => intro seen; simp
  | cons s rest ih =>
    intro seen
    refine le_trans ?_ (ih (insertId seen s))
    unfold insertId
    split
    · exact le_rfl
    · simp

theorem ceilingScan_count (pos : ErrorPos) :
    ∀ (strs seen : List String),
      ((ceilingScan pos strs seen).1.countP isCeilingErr) =
        if seen.length < 101 ∧ 101 ≤ (strs.foldl insertId seen).length
          then 1 else 0 := by
  intro strs
  induction strs with
  | nil =>
    intro seen
    simp only [ceilingScan, List.countP_nil, List.foldl_nil]
    split
    · omega
    · rfl
  | cons s rest ih =>
    intro seen
    simp only [ceilingScan, List.foldl_cons]
    by_cases h : seen.contains s
    · have hm : s ∈ seen := by simpa using h
      rw [if_pos h, ih seen]
      simp only [show insertId seen s = seen from by simp [insertId, hm]]
    · have hm : s ∉ seen := by simpa using h
      rw [if_neg h]
      simp only [List.countP_append]
      rw [ih (seen ++ [s])]
      simp only [show insertId seen s = seen ++ [s] from by simp [insertId, hm]]
      have hmono := foldl_insertId_mono rest (seen ++ [s])
      have hl : (seen ++ [s]).length = seen.length + 1 := by simp
      by_cases h101 : (seen ++ [s]).length = 101
      · rw [if_pos (by simpa using h101)]
        simp only [isCeilingErr, newError, ceilingMsg, List.countP_cons, List.countP_nil]
        norm_num
        split <;> split <;> omega
      · rw [if_neg (by simpa using h101)]
        simp only [List.countP_nil]
        split <;> split <;> omega

theorem uniqStrings_go_congr : ∀ (l s₁ s₂ : List String),
    (∀ x, x ∈ s₁ ↔ x ∈ s₂) → uniqStrings.go s₁ l = uniqStrings.go s₂ l := by
  intro l
  induction l with
  | nil => intros; rfl
  | cons a t ih =>
    intro s₁ s₂ hmem
    rw [uniqStrings.go, uniqStrings.go]
    by_cases h : a ∈ s₁
    · rw [if_pos h, if_pos ((hmem a).mp h)]
      exact ih s₁ s₂ hmem
    · rw [if_neg h, if_neg (fun hh => h ((hmem a).mpr hh))]
      rw [ih (a :: s₁) (a :: s₂) (by intro x; simp [hmem x])]

theorem foldl_insertId_eq : ∀ (l seen : List String),
    l.foldl insertId seen = seen ++ uniqStrings.go seen l := by
  intro l
  induction l with
  | nil => intro seen; simp [uniqStrings.go]
  | cons a t ih =>
    intro seen
    rw [List.foldl_cons, uniqStrings.go]
    by_cases h : a ∈ seen
    · rw [if_pos h]
      rw [show insertId seen a = seen from by simp [insertId, List.elem_iff, h]]
      exact ih seen
    · rw [if_neg h]
      rw [show insertId seen a = seen ++ [a] from by simp [insertId, List.elem_iff, h]]
      rw [ih (seen ++ [a])]
      rw [uniqStrings_go_congr t (seen ++ [a]) (a :: seen)
        (by intro x; simp; exact Or.comm)]
      simp

theorem foldl_secrets_flatMap : ∀ (actions : List Action) (seen : List String),
    actions.foldl (fun s a => a.Secrets.foldl insertId s) seen =
      (actions.flatMap (fun a => a.Secrets)).foldl insertId seen := by
  intro actions
  induction actions with
  | nil => intro seen; rfl
  | cons a rest ih =>
    intro seen
    rw [List.foldl_cons, List.flatMap_cons, List.foldl_append, ih]

theorem checkActionsFrom_ceiling_count (o : Nat → List String) :
    ∀ (actions : List Action) (i : Nat) (secrets : List String),
      ((checkActionsFrom o i secrets actions).countP isCeilingErr) =
        if secrets.length < 101 ∧
            101 ≤ (actions.foldl (fun s a => a.Secrets.foldl insertId s) secrets).length
          then 1 else 0 := by
  intro actions
  induction actions with
  | nil =>
    intro i secrets
    simp only [checkActionsFrom, List.countP_nil, List.foldl_nil]
    split
    · omega
    · rfl
  | cons t rest ih =>
    intro i secrets
    simp only [checkActionsFrom, List.countP_append, List.foldl_cons]
    rw [countP_ceiling_uses, ceilingScan_count, ceilingScan_snd,
      countP_ceiling_env, countP_ceiling_secretsScan, ih]
    have h1 := foldl_insertId_mono t.Secrets secrets
    have h2 := foldl_insertId_mono
      (rest.flatMap (fun a => a.Secrets)) (t.Secrets.foldl insertId secrets)
    rw [← foldl_secrets_flatMap] at h2
    split <;> split <;> split <;> omega

/-- C4: scanning all actions' secrets lists in declaration order, the
validator emits no secret-ceiling diagnostic when the number of distinct
secret names over the whole file is at most 100, and exactly one ERROR
(not one per subsequent secret) as soon as a 101st distinct name exists. -/
theorem secret_ceiling_once (actions : List Action) (o : Nat → List String) :
    ((checkActions actions o).countP isCeilingErr) =
      if 100 < (uniqStrings (actions.flatMap (fun a => a.Secrets))).length
        then 1 else 0 := by
  rw [checkActions, checkActionsFrom_ceiling_count]
  rw [foldl_secrets_flatMap, foldl_insertId_eq]
  rw [show uniqStrings.go [] (actions.flatMap (fun a => a.Secrets)) =
      uniqStrings (actions.flatMap (fun a => a.Secrets)) from rfl]
  simp only [List.nil_append, List.length_nil]
  split <;> split <;> omega

/-!
### C1: cycle detection
-/

theorem isEdge_lt {adj : List (List Nat)} {u v : Nat} (h : isEdge adj u v = true) :
    u < adj.length := by
  by_contra hle
  rw [isEdge, List.getD_eq_default _ _ (by omega)] at h
  simp at h

theorem chainB_mem_lt {adj : List (List Nat)} :
    ∀ {l : List Nat}, chainB adj l = true → ∀ x ∈ l.dropLast, x < adj.length := by
  intro l
  induction l with
  | nil =>
    intro _ x hx
    simp at hx
  | cons a t ih =>
    intro hc x hx
    cases t with
    | nil => simp at hx
    | cons b t2 =>
      rw [chainB] at hc
      rcases Bool.and_eq_true_iff.mp hc with ⟨he, hrest⟩
      rcases List.mem_cons.mp (by simpa using hx) with h | h
      · exact h ▸ isEdge_lt he
      · exact ih hrest x h

theorem elemCycleRep_mem_lt {adj : List (List Nat)} {c : List Nat}
    (h : IsElemCycleRep adj c) : ∀ x ∈ c, x < adj.length := by
  intro x hx
  obtain ⟨hne, hnd, hmin, hchain⟩ := h
  have := chainB_mem_lt hchain x
  rw [List.dropLast_concat] at this
  exact this hx

theorem mem_candCycles {n : Nat} {c : List Nat} :
    c ∈ candCycles n ↔ c.Nodup ∧ ∀ v ∈ c, v < n := by
  rw [candCycles, List.mem_flatMap]
  constructor
  · rintro ⟨s, hs, hperm⟩
    rw [List.mem_sublists] at hs
    rw [List.mem_permutations'] at hperm
    have hsn : s.Nodup := List.Nodup.sublist hs (List.nodup_range n)
    refine ⟨hperm.nodup_iff.mpr hsn, fun v hv => ?_⟩
    have : v ∈ s := hperm.subset hv
    simpa using List.mem_range.mp (hs.subset this)
  · rintro ⟨hnd, hlt⟩
    refine ⟨(List.range n).filter (fun v => decide (v ∈ c)), ?_, ?_⟩
    · rw [List.mem_sublists]
      exact List.filter_sublist _
    · rw [List.mem_permutations']
      rw [List.perm_ext_iff_of_nodup hnd (List.Nodup.filter _ (List.nodup_range n))]
      intro a
      simp only [List.mem_filter, List.mem_range, decide_eq_true_eq]
      exact ⟨fun ha => ⟨hlt a ha, ha⟩, fun h => h.2⟩

theorem sublist_perm_eq {α : Type} :
    ∀ (l s₁ s₂ : List α), l.Nodup → s₁.Sublist l → s₂.Sublist l →
      s₁.Perm s₂ → s₁ = s₂ := by
  intro l
  induction l with
  | nil =>
    intro s₁ s₂ _ h1 h2 _
    rw [List.sublist_nil.mp h1, List.sublist_nil.mp h2]
  | cons a t ih =>
    intro s₁ s₂ hnd h1 h2 hp
    have hat : a ∉ t := (List.nodup_cons.mp hnd).1
    have hndt : t.Nodup := (List.nodup_cons.mp hnd).2
    cases h1 with
    | cons _ h1t =>
      cases h2 with
      | cons _ h2t => exact ih s₁ s₂ hndt h1t h2t hp
      | cons₂ _ h2t =>
        exfalso
        exact hat (h1t.subset (hp.symm.subset (List.mem_cons_self a _)))
    | cons₂ _ h1t =>
      cases h2 with
      | cons _ h2t =>
        exfalso
        exact hat (h2t.subset (hp.subset (List.mem_cons_self a _)))
      | cons₂ _ h2t =>
        have := ih _ _ hndt h1t h2t ((List.perm_cons a).mp hp)
        rw [this]

theorem candCycles_nodup (n : Nat) : (candCycles n).Nodup := by
  rw [candCycles, List.nodup_flatMap]
  constructor
  · intro s hs
    have hsn : s.Nodup :=
      List.Nodup.sublist (List.mem_sublists.mp hs) (List.nodup_range n)
    exact (List.permutations_perm_permutations' s).nodup_iff.mp
      (List.nodup_permutations s hsn)
  · have hsubnd : ((List.range n).sublists).Nodup :=
      List.nodup_sublists.mpr (List.nodup_range n)
    apply List.Pairwise.imp_of_mem ?_ hsubnd
    intro s₁ s₂ hs₁ hs₂ hne
    intro c hc₁ hc₂
    rw [List.mem_permutations'] at hc₁ hc₂
    exact hne (sublist_perm_eq (List.range n) s₁ s₂ (List.nodup_range n)
      (List.mem_sublists.mp hs₁) (List.mem_sublists.mp hs₂)
      (hc₁.symm.trans hc₂))

theorem mem_elemCycles {adj : List (List Nat)} {c : List Nat} :
    c ∈ elemCycles adj ↔ IsElemCycleRep adj c := by
  rw [elemCycles, List.mem_filter]
  constructor
  · rintro ⟨_, h⟩
    exact of_decide_eq_true h
  · intro h
    refine ⟨?_, decide_eq_true h⟩
    rw [mem_candCycles]
    exact ⟨h.2.1, elemCycleRep_mem_lt h⟩

theorem elemCycles_nodup (adj : List (List Nat)) : (elemCycles adj).Nodup :=
  List.Nodup.filter _ (candCycles_nodup _)

theorem elemCycleRep_singleton (adj : List (List Nat)) (i : Nat) :
    IsElemCycleRep adj [i] ↔ isEdge adj i i = true := by
  unfold IsElemCycleRep
  simp [chainB]

/-- C1: `checkCircularDependencies` emits its FATAL diagnostics as the
image of the cycle enumeration — one FATAL per enumerated cycle, naming
the cycle's starting action and positioned at the needs attribute of the
cycle's last action — and the enumeration contains a vertex sequence
exactly when it is the canonical representative of an elementary cycle of
the dependency graph, each exactly once (the list has no duplicates).  A
one-vertex sequence is enumerated exactly when the action has a
dependency edge to itself; the last conjunct evaluates the one-action
self-needs scenario to its single FATAL diagnostic. -/
theorem circular_dependency_reporting (actions : List Action) :
    (checkCircularDependencies actions =
      (elemCycles (adjOf actions)).map (fun cycle =>
        newFatal (actions.getD (cycle.getLastD 0) default).posNeeds
          ("Circular dependency on `" ++
            (actions.getD (cycle.headD 0) default).Identifier ++ "'"))) ∧
    (∀ c, c ∈ elemCycles (adjOf actions) ↔ IsElemCycleRep (adjOf actions) c) ∧
    ((elemCycles (adjOf actions)).Nodup) ∧
    (∀ i, [i] ∈ elemCycles (adjOf actions) ↔ isEdge (adjOf actions) i i = true) ∧
    (checkCircularDependencies
        [{ Identifier := "a", Uses := { Raw := "./x", Path := "./x" },
           Needs := ["a"], posNeeds := { line := 4 } }] =
      [newFatal { line := 4 } "Circular dependency on `a'"]) := by
  refine ⟨rfl, fun c => mem_elemCycles, elemCycles_nodup _, fun i => ?_, by decide⟩
  rw [mem_elemCycles]
  exact elemCycleRep_singleton _ i

/-!
### Message tags

Every diagnostic the block extractors emit carries a message whose first
two characters lie in a fixed set that excludes `Id` ("Identifier `…'
redefined") and `` `v `` ("`version` …"); this pins the redefinition and
version diagnostics to their unique emission sites in the counting
arguments below.
-/



theorem countP_zero_of_tags (l : List PError) (p : PError → Bool)
    (hl : ∀ e ∈ l, tag2 e ∈ blockTags)
    (hp : ∀ e, p e = true → tag2 e ∉ blockTags) :
    l.countP p = 0 :=
  List.countP_eq_zero.mpr fun e he hpe => hp e hpe (hl e he)

theorem tag2_mk {p : String} (x : String) (pos : ErrorPos) (sev : Severity)
    (h : 2 ≤ p.length) : tag2 ⟨pos, sev, p ++ x⟩ = p.data.take 2 :=
  take2_append x h

theorem msgs_identString (t : Token) :
    ∀ e ∈ (identString t).2, tag2 e ∈ blockTags := by
  unfold identString
  rcases t.ty <;> intro e he <;> simp at he <;> rw [he] <;>
    rw [show (newError (posFromToken t) _) =
      (⟨posFromToken t, Severity.error,
        "Each identifier should be a string, got " ++ _⟩ : PError) from rfl] <;>
    rw [tag2_mk _ _ _ (by decide)] <;> decide

theorem tag_mem {p : String} (x : String) (pos : ErrorPos) (sev : Severity)
    (h2 : 2 ≤ p.length) (ht : p.data.take 2 ∈ blockTags) :
    tag2 (⟨pos, sev, p ++ x⟩ : PError) ∈ blockTags := by
  rw [tag2_mk x pos sev h2]
  exact ht

theorem tag_newError {p : String} (x : String) (pos : ErrorPos)
    (h2 : 2 ≤ p.length) (ht : p.data.take 2 ∈ blockTags) :
    tag2 (newError pos (p ++ x)) ∈ blockTags :=
  tag_mem x pos Severity.error h2 ht

theorem tag_newWarning {p : String} (x : String) (pos : ErrorPos)
    (h2 : 2 ≤ p.length) (ht : p.data.take 2 ∈ blockTags) :
    tag2 (newWarning pos (p ++ x)) ∈ blockTags :=
  tag_mem x pos Severity.warning h2 ht

/-- Diagnostics-accumulating folds preserve a per-diagnostic property. -/
theorem pred_foldl {α β : Type} (P : PError → Prop)
    (step : (β × List PError) → α → (β × List PError))
    (hstep : ∀ acc x, (∀ e ∈ acc.2, P e) → ∀ e ∈ (step acc x).2, P e) :
    ∀ (l : List α) (acc : β × List PError), (∀ e ∈ acc.2, P e) →
      ∀ e ∈ (l.foldl step acc).2, P e := by
  intro l
  induction l with
  | nil => exact fun acc h => h
  | cons x rest ih =>
    intro acc hacc
    rw [List.foldl_cons]
    exact ih _ (hstep acc x hacc)

theorem msgs_literalToString (node : Node) :
    ∀ e ∈ (literalToString node).2, tag2 e ∈ blockTags := by
  intro e he
  rcases node with items | ⟨lb, items⟩ | tok | ⟨lb, elems⟩ <;>
    simp only [literalToString] at he
  case literal =>
    by_cases h : tok.ty == TokenType.strT
    · rw [if_pos h] at he
      simp at he
    · rw [if_neg h] at he
      simp at he
      rw [he]
      exact tag_newError _ _ (by decide) (by decide)
  all_goals
    simp at he
  all_goals
    rw [he]
    exact tag_newError _ _ (by decide) (by decide)

theorem msgs_literalToInt (node : Node) :
    ∀ e ∈ (literalToInt node).2, tag2 e ∈ blockTags := by
  intro e he
  rcases node with items | ⟨lb, items⟩ | tok | ⟨lb, elems⟩ <;>
    simp only [literalToInt] at he
  case literal =>
    by_cases h : tok.ty == TokenType.numberT
    · rw [if_pos h] at he
      simp at he
    · rw [if_neg h] at he
      simp at he
      rw [he]
      exact tag_newError _ _ (by decide) (by decide)
  all_goals
    simp at he
  all_goals
    rw [he]
    exact tag_newError _ _ (by decide) (by decide)

theorem msgs_literalToStringArray (node : Node) (ps : Bool) :
    ∀ e ∈ (literalToStringArray node ps).2, tag2 e ∈ blockTags := by
  intro e he
  rcases node with items | ⟨lb, items⟩ | tok | ⟨lb, elems⟩ <;>
    simp only [literalToStringArray] at he
  case literal =>
    by_cases h : ps && tok.ty == TokenType.strT
    · rw [if_pos h] at he
      simp at he
    · rw [if_neg h] at he
      simp at he
      rw [he]
      exact tag_newError _ _ (by decide) (by decide)
  case listNode =>
    refine pred_foldl (fun e => tag2 e ∈ blockTags) _ ?_ elems ([], []) (by simp) e he
    intro acc x hacc f hf
    simp only at hf
    rcases List.mem_append.mp hf with h | h
    · exact hacc f h
    · exact msgs_literalToString x f h
  all_goals
    simp at he
  all_goals
    rw [he]
    exact tag_newError _ _ (by decide) (by decide)

theorem tag_newError3 {p : String} (m q : String) (pos : ErrorPos)
    (h2 : 2 ≤ p.length) (ht : p.data.take 2 ∈ blockTags) :
    tag2 (newError pos (p ++ m ++ q)) ∈ blockTags := by
  rw [String.append_assoc]
  exact tag_newError _ _ h2 ht

theorem tag_newWarning3 {p : String} (m q : String) (pos : ErrorPos)
    (h2 : 2 ≤ p.length) (ht : p.data.take 2 ∈ blockTags) :
    tag2 (newWarning pos (p ++ m ++ q)) ∈ blockTags := by
  rw [String.append_assoc]
  exact tag_newWarning _ _ h2 ht

theorem tag_eachAttribute (pos : ErrorPos) (actionID : String) (b : Bool) :
    tag2 (newError pos (("Each attribute of " ++
      (if b then "the object" else "action `" ++ actionID ++ "'")) ++
      " must be an assignment")) ∈ blockTags := by
  by_cases hb : b = true
  · rw [if_pos hb]
    exact tag_newError3 _ _ _ (by decide) (by decide)
  · rw [if_neg hb]
    exact tag_newError3 _ _ _ (by decide) (by decide)

theorem msgs_checkAssignmentsOnly :
    ∀ (items : List ObjItem) (id : String), ∀ e ∈ checkAssignmentsOnly items id,
      tag2 e ∈ blockTags := by
  refine (checkAssignmentsOnly.mutual_induct
    (fun items id => ∀ e ∈ checkAssignmentsOnly items id, tag2 e ∈ blockTags)
    (fun item id => ∀ e ∈ checkAssignmentsOnlyItem item id, tag2 e ∈ blockTags)
    (fun v id => ∀ e ∈ checkAssignmentsOnlyVal v id, tag2 e ∈ blockTags)
    ?_ ?_ ?_ ?_ ?_ ?_).1
  · intro lb child actionID ih e he
    exact ih e he
  · intro t x hne e he
    rcases t with a1 | ⟨lb, child⟩ | c1 | d1
    · simp [checkAssignmentsOnlyVal] at he
    · exact (hne lb child rfl).elim
    · simp [checkAssignmentsOnlyVal] at he
    · simp [checkAssignmentsOnlyVal] at he
  · intro ks a v actionID hass ih e he
    rw [checkAssignmentsOnlyItem, if_pos hass] at he
    exact ih e he
  · intro ks a v actionID hass e he
    rw [checkAssignmentsOnlyItem, if_neg hass] at he
    rw [List.mem_singleton.mp he]
    exact tag_eachAttribute _ _ _
  · intro x e he
    simp [checkAssignmentsOnly] at he
  · intro item rest actionID ih1 ih2 e he
    rw [checkAssignmentsOnly] at he
    rcases List.mem_append.mp he with h | h
    · exact ih1 e h
    · exact ih2 e h

theorem msgs_literalToStringMap (node : Node) :
    ∀ e ∈ (literalToStringMap node).2, tag2 e ∈ blockTags := by
  intro e he
  rcases node with items | ⟨lb, items⟩ | tok | ⟨lb, elems⟩ <;>
    simp only [literalToStringMap] at he
  case object =>
    refine pred_foldl (fun e => tag2 e ∈ blockTags) _ ?_ items
      ([], checkAssignmentsOnly items "") (msgs_checkAssignmentsOnly items "") e he
    intro acc x hacc f hf
    by_cases hx : isAssignment x
    · rw [if_pos hx] at hf
      rcases h1 : literalToString x.val with ⟨⟨str, ok⟩, d1⟩
      rcases h2 : identString (x.keys.headD {}) with ⟨key, d2⟩
      simp only [h1, h2] at hf
      by_cases hok : ok = true
      · rw [if_pos hok] at hf
        by_cases hkey : key ≠ ""
        · rw [if_pos hkey] at hf
          rcases List.mem_append.mp hf with h | h
          · rcases List.mem_append.mp h with h3 | h3
            · rcases List.mem_append.mp h3 with h4 | h4
              · exact hacc f h4
              · have := msgs_literalToString x.val f
                rw [h1] at this
                exact this h4
            · have := msgs_identString (x.keys.headD {}) f
              rw [h2] at this
              exact this h3
          · by_cases hl : (List.lookup key acc.1).isSome
            · rw [if_pos hl] at h
              simp at h
              rw [h]
              exact tag_newWarning3 _ _ _ (by decide) (by decide)
            · rw [if_neg hl] at h
              simp at h
        · rw [if_neg hkey] at hf
          rcases List.mem_append.mp hf with h | h
          · rcases List.mem_append.mp h with h3 | h3
            · exact hacc f h3
            · have := msgs_literalToString x.val f
              rw [h1] at this
              exact this h3
          · have := msgs_identString (x.keys.headD {}) f
            rw [h2] at this
            exact this h
      · rw [if_neg hok] at hf
        rcases List.mem_append.mp hf with h | h
        · exact hacc f h
        · have := msgs_literalToString x.val f
          rw [h1] at this
          exact this h
    · rw [if_neg hx] at hf
      exact hacc f hf
  all_goals
    simp at he
  all_goals
    rw [he]
    exact tag_newError _ _ (by decide) (by decide)

theorem tag_lit {m : String} (pos : ErrorPos) (sev : Severity)
    (h : m.data.take 2 ∈ blockTags) :
    tag2 (⟨pos, sev, m⟩ : PError) ∈ blockTags := h

theorem msgs_parseIdentifier (key : Token) :
    ∀ e ∈ (parseIdentifier key).2, tag2 e ∈ blockTags := by
  intro e he
  rw [parseIdentifier] at he
  split at he
  · rw [List.mem_singleton.mp he]
    simp only [String.append_assoc]
    exact tag_newError _ _ (by decide) (by decide)
  · exact absurd he (List.not_mem_nil e)

theorem msgs_parseUses (action : Action) (node : Node) :
    ∀ e ∈ (parseUses action node).2, tag2 e ∈ blockTags := by
  intro e he
  rcases h2 : literalToString node with ⟨⟨strVal, ok⟩, d2⟩
  have hd2 : ∀ f ∈ d2, tag2 f ∈ blockTags := by
    intro f hf
    have := msgs_literalToString node f
    rw [h2] at this
    exact this hf
  simp only [parseUses, h2] at he
  repeat' split at he
  all_goals
    simp only [List.mem_append, List.mem_singleton, List.not_mem_nil,
      false_or, or_false] at he
  all_goals
    first
    | exact hd2 e he
    | skip
  all_goals
    try rcases he with he | he
  all_goals
    first
    | exact hd2 e he
    | skip
  all_goals
    try rcases he with he | he
  all_goals
    first
    | exact hd2 e he
    | skip
  all_goals
    try rw [he]
  all_goals
    try simp only [String.append_assoc]
  all_goals
    first
    | exact tag_newError _ _ (by decide) (by decide)
    | exact tag_newWarning _ _ (by decide) (by decide)
    | exact tag_lit _ _ (by decide)

theorem msgs_parseCommand (action : Action) (dest : ActionCommand) (name : String)
    (node : Node) (allowBlank : Bool)
    (hn : ∀ r : String, ("`" ++ (name ++ r)).data.take 2 ∈ blockTags) :
    ∀ e ∈ (parseCommand action dest name node allowBlank).2, tag2 e ∈ blockTags := by
  intro e he
  rcases h2 : literalToString node with ⟨⟨raw, ok⟩, d2⟩
  have hd2 : ∀ f ∈ d2, tag2 f ∈ blockTags := by
    intro f hf
    have := msgs_literalToString node f
    rw [h2] at this
    exact this hf
  rcases h3 : literalToStringArray node false with ⟨parsed?, d3⟩
  have hd3 : ∀ f ∈ d3, tag2 f ∈ blockTags := by
    intro f hf
    have := msgs_literalToStringArray node false f
    rw [h3] at this
    exact this hf
  rcases node with items | ⟨lb, items⟩ | tok | ⟨lb, elems⟩ <;>
    simp only [parseCommand, h2, h3] at he <;>
    repeat' split at he
  all_goals
    simp only [List.mem_append, List.mem_singleton, List.not_mem_nil,
      false_or, or_false] at he
  all_goals
    first
    | exact hd2 e he
    | exact hd3 e he
    | skip
  all_goals
    try rcases he with he | he
  all_goals
    first
    | exact hd2 e he
    | exact hd3 e he
    | skip
  all_goals
    try rcases he with he | he
  all_goals
    first
    | exact hd2 e he
    | exact hd3 e he
    | skip
  all_goals
    try rw [he]
  all_goals
    try simp only [String.append_assoc]
  all_goals
    first
    | exact tag_newError _ _ (by decide) (by decide)
    | exact tag_newWarning _ _ (by decide) (by decide)
    | exact tag_lit _ _ (by decide)
    | exact hn _

theorem msgs_parseRequiredString (value : String) (val : Node)
    (nodeType name id : String)
    (hn : ∀ r : String, ("`" ++ (name ++ r)).data.take 2 ∈ blockTags) :
    ∀ e ∈ (parseRequiredString value val nodeType name id).2, tag2 e ∈ blockTags := by
  intro e he
  rcases h2 : literalToString val with ⟨⟨newVal, ok⟩, d2⟩
  have hd2 : ∀ f ∈ d2, tag2 f ∈ blockTags := by
    intro f hf
    have := msgs_literalToString val f
    rw [h2] at this
    exact this hf
  simp only [parseRequiredString, h2] at he
  repeat' split at he
  all_goals
    simp only [List.mem_append, List.mem_singleton, List.not_mem_nil,
      false_or, or_false] at he
  all_goals
    first
    | exact hd2 e he
    | skip
  all_goals
    try rcases he with he | he
  all_goals
    first
    | exact hd2 e he
    | skip
  all_goals
    try rcases he with he | he
  all_goals
    first
    | exact hd2 e he
    | skip
  all_goals
    try rw [he]
  all_goals
    try simp only [String.append_assoc]
  all_goals
    first
    | exact tag_newError _ _ (by decide) (by decide)
    | exact tag_newWarning _ _ (by decide) (by decide)
    | exact tag_lit _ _ (by decide)
    | exact hn _

theorem msgs_parseActionAttribute (name : String) (action : Action) (val : Node) :
    ∀ e ∈ (parseActionAttribute name action val).2, tag2 e ∈ blockTags := by
  intro e he
  rw [parseActionAttribute.eq_def] at he
  split at he
  · exact msgs_parseUses action val e he
  · rcases h : literalToStringArray val true with ⟨needs?, d⟩
    simp only [h] at he
    have := msgs_literalToStringArray val true e
    rw [h] at this
    exact this he
  · rcases h : parseCommand action action.Runs "runs" val false with ⟨runs, d⟩
    simp only [h] at he
    have := msgs_parseCommand action action.Runs "runs" val false
      (by
        intro r
        rw [← String.append_assoc, take2_append r (by decide)]
        decide) e
    rw [h] at this
    exact this he
  · rcases h : parseCommand action action.Args "args" val true with ⟨args, d⟩
    simp only [h] at he
    have := msgs_parseCommand action action.Args "args" val true
      (by
        intro r
        rw [← String.append_assoc, take2_append r (by decide)]
        decide) e
    rw [h] at this
    exact this he
  · rcases h : literalToStringMap val with ⟨env?, d⟩
    simp only [h] at he
    have := msgs_literalToStringMap val e
    rw [h] at this
    exact this he
  · rcases h : literalToStringArray val false with ⟨secrets?, d⟩
    simp only [h] at he
    have := msgs_literalToStringArray val false e
    rw [h] at this
    exact this he
  · rw [List.mem_singleton.mp he]
    simp only [String.append_assoc]
    exact tag_newWarning _ _ (by decide) (by decide)

theorem msgs_parseBlockPreamble (item : ObjItem) (nodeType : String) :
    ∀ e ∈ (parseBlockPreamble item nodeType).2, tag2 e ∈ blockTags := by
  intro e he
  rcases h1 : parseIdentifier (item.keys.getD 1 {}) with ⟨id, d1⟩
  have hd1 : ∀ f ∈ d1, tag2 f ∈ blockTags := by
    intro f hf
    have := msgs_parseIdentifier (item.keys.getD 1 {}) f
    rw [h1] at this
    exact this hf
  simp only [parseBlockPreamble, h1] at he
  split at he
  · exact hd1 e he
  · split at he
    · rcases List.mem_append.mp he with h | h
      · exact hd1 e h
      · exact msgs_checkAssignmentsOnly _ _ e h
    · rcases List.mem_append.mp he with h | h
      · exact hd1 e h
      · rw [List.mem_singleton.mp h]
        simp only [String.append_assoc]
        exact tag_newError _ _ (by decide) (by decide)

theorem msgs_actionifyItem (item : ObjItem) :
    ∀ e ∈ (actionifyItem item).2, tag2 e ∈ blockTags := by
  intro e he
  rcases h1 : parseBlockPreamble item "action" with ⟨⟨id, obj?⟩, d1⟩
  have hd1 : ∀ f ∈ d1, tag2 f ∈ blockTags := by
    intro f hf
    have := msgs_parseBlockPreamble item "action" f
    rw [h1] at this
    exact this hf
  simp only [actionifyItem, h1] at he
  rcases obj? with _ | items
  · exact hd1 e he
  · refine pred_foldl (fun e => tag2 e ∈ blockTags) _ ?_ items (_, d1) hd1 e he
    intro acc x hacc f hf
    rcases hk : identString (x.keys.headD {}) with ⟨nm, dk⟩
    simp only [hk] at hf
    rcases ha : parseActionAttribute nm acc.1 x.val with ⟨a2, da⟩
    simp only [ha] at hf
    rcases List.mem_append.mp hf with h | h
    · rcases List.mem_append.mp h with h2 | h2
      · exact hacc f h2
      · have := msgs_identString (x.keys.headD {}) f
        rw [hk] at this
        exact this h2
    · have := msgs_parseActionAttribute nm acc.1 x.val f
      rw [ha] at this
      exact this h

theorem msgs_workflowifyItem (item : ObjItem) :
    ∀ e ∈ (workflowifyItem item).2, tag2 e ∈ blockTags := by
  intro e he
  rcases h1 : parseBlockPreamble item "workflow" with ⟨⟨id, obj?⟩, d1⟩
  have hd1 : ∀ f ∈ d1, tag2 f ∈ blockTags := by
    intro f hf
    have := msgs_parseBlockPreamble item "workflow" f
    rw [h1] at this
    exact this hf
  simp only [workflowifyItem, h1] at he
  rcases obj? with _ | items
  · exact hd1 e he
  · refine pred_foldl (fun e => tag2 e ∈ blockTags) _ ?_ items (_, d1) hd1 e he
    intro acc x hacc f hf
    rcases hk : identString (x.keys.headD {}) with ⟨nm, dk⟩
    simp only [hk] at hf
    have hdk : ∀ g ∈ dk, tag2 g ∈ blockTags := by
      intro g hg
      have := msgs_identString (x.keys.headD {}) g
      rw [hk] at this
      exact this hg
    split at hf
    · rcases h2 : parseRequiredString acc.1.On x.val "workflow" "on" id
        with ⟨⟨v, ok2⟩, d2⟩
      simp only [h2] at hf
      have hd2 : ∀ g ∈ d2, tag2 g ∈ blockTags := by
        intro g hg
        have := msgs_parseRequiredString acc.1.On x.val "workflow" "on" id
          (by
            intro r
            rw [← String.append_assoc, take2_append r (by decide)]
            decide) g
        rw [h2] at this
        exact this hg
      rcases List.mem_append.mp hf with h | h
      · rcases List.mem_append.mp h with h3 | h3
        · exact hacc f h3
        · exact hdk f h3
      · exact hd2 f h
    · rcases h2 : literalToStringArray x.val true with ⟨res?, d2⟩
      simp only [h2] at hf
      have hd2 : ∀ g ∈ d2, tag2 g ∈ blockTags := by
        intro g hg
        have := msgs_literalToStringArray x.val true g
        rw [h2] at this
        exact this hg
      repeat' split at hf
      all_goals
        simp only [List.mem_append, List.mem_singleton, List.not_mem_nil,
          false_or, or_false] at hf
      all_goals
        first
        | exact hacc f hf
        | exact hdk f hf
        | exact hd2 f hf
        | skip
      all_goals
        try rcases hf with hf | hf
      all_goals
        first
        | exact hacc f hf
        | exact hdk f hf
        | exact hd2 f hf
        | skip
      all_goals
        try rcases hf with hf | hf
      all_goals
        first
        | exact hacc f hf
        | exact hdk f hf
        | exact hd2 f hf
        | skip
      all_goals
        try rcases hf with hf | hf
      all_goals
        first
        | exact hacc f hf
        | exact hdk f hf
        | exact hd2 f hf
        | skip
      all_goals
        try rcases hf with hf | hf
      all_goals
        first
        | exact hacc f hf
        | exact hdk f hf
        | exact hd2 f hf
        | skip
      all_goals
        try rw [hf]
      all_goals
        try simp only [String.append_assoc]
      all_goals
        first
        | exact tag_newError _ _ (by decide) (by decide)
        | exact tag_newWarning _ _ (by decide) (by decide)
        | exact tag_lit _ _ (by decide)
    · rcases List.mem_append.mp hf with h | h
      · rcases List.mem_append.mp h with h3 | h3
        · exact hacc f h3
        · exact hdk f h3
      · rw [List.mem_singleton.mp h]
        simp only [String.append_assoc]
        exact tag_newWarning _ _ (by decide) (by decide)

theorem isRedef_eq_false_of_tag2 {x : String} {e : PError}
    (h : tag2 e ≠ (['I', 'd'] : List Char)) : isRedef x e = false := by
  rw [isRedef, beq_eq_false_iff_ne]
  intro hne
  apply h
  show e.message.data.take 2 = _
  rw [hne, redefMsg, String.append_assoc, take2_append _ (by decide)]
  decide

theorem isRedef_eq_false_of_tags {x : String} {e : PError}
    (h : tag2 e ∈ blockTags) : isRedef x e = false := by
  refine isRedef_eq_false_of_tag2 (fun heq => ?_)
  rw [heq] at h
  exact absurd h (by decide)

theorem not_isRedef_of_tags {x : String} {e : PError} (h : tag2 e ∈ blockTags) :
    ¬ isRedef x e = true := by
  rw [isRedef_eq_false_of_tags h]
  exact Bool.false_ne_true

theorem not_isRedef_lit {x m : String} (pos : ErrorPos) (sev : Severity)
    (h : m.data.take 2 ≠ (['I', 'd'] : List Char)) :
    ¬ isRedef x (⟨pos, sev, m⟩ : PError) = true := by
  rw [@isRedef_eq_false_of_tag2 x ⟨pos, sev, m⟩ h]
  exact Bool.false_ne_true

theorem not_isRedef_app {x p : String} (m : String) (pos : ErrorPos) (sev : Severity)
    (h2 : 2 ≤ p.length) (h : p.data.take 2 ≠ (['I', 'd'] : List Char)) :
    ¬ isRedef x (⟨pos, sev, p ++ m⟩ : PError) = true := by
  apply not_isRedef_lit
  rw [take2_append m h2]
  exact h

theorem countP_redef_zero {x : String} {l : List PError}
    (h : ∀ e ∈ l, tag2 e ∈ blockTags) : l.countP (isRedef x) = 0 := by
  rw [List.countP_eq_zero]
  intro e he
  exact not_isRedef_of_tags (h e he)

theorem redefMsg_inj {a b : String} (h : redefMsg a = redefMsg b) : a = b := by
  have hd := congrArg String.data h
  simp only [redefMsg, data_append, List.append_assoc] at hd
  exact String.ext (List.append_cancel_right (List.append_cancel_left hd))

theorem isRedef_redefMsg (pos : ErrorPos) (sev : Severity) (a x : String) :
    isRedef x (⟨pos, sev, redefMsg a⟩ : PError) = (a == x) := by
  by_cases h : a = x
  · subst h
    simp [isRedef]
  · have hne : redefMsg a ≠ redefMsg x := fun hc => h (redefMsg_inj hc)
    rw [isRedef]
    show (redefMsg a == redefMsg x) = (a == x)
    rw [beq_eq_false_iff_ne.mpr hne, beq_eq_false_iff_ne.mpr h]

theorem countP_redef_parseVersion (x : String) (idx : Nat) (item : ObjItem)
    (version : Int) :
    (parseVersion idx item version).2.countP (isRedef x) = 0 := by
  rw [List.countP_eq_zero]
  intro e he
  rcases hk : identString (item.keys.headD {}) with ⟨nm, d0⟩
  have hd0 : ∀ f ∈ d0, tag2 f ∈ blockTags := by
    intro f hf
    have := msgs_identString (item.keys.headD {}) f
    rw [hk] at this
    exact this hf
  rcases hv : literalToInt item.val with ⟨⟨v, ok⟩, d1⟩
  have hd1 : ∀ f ∈ d1, tag2 f ∈ blockTags := by
    intro f hf
    have := msgs_literalToInt item.val f
    rw [hv] at this
    exact this hf
  simp only [parseVersion, hk, hv] at he
  repeat' split at he
  all_goals
    simp only [List.mem_append, List.mem_singleton, List.not_mem_nil,
      false_or, or_false] at he
  all_goals
    first
    | exact not_isRedef_of_tags (hd0 e he)
    | exact not_isRedef_of_tags (hd1 e he)
    | skip
  all_goals
    try rcases he with he | he
  all_goals
    first
    | exact not_isRedef_of_tags (hd0 e he)
    | exact not_isRedef_of_tags (hd1 e he)
    | skip
  all_goals
    try rcases he with he | he
  all_goals
    first
    | exact not_isRedef_of_tags (hd0 e he)
    | exact not_isRedef_of_tags (hd1 e he)
    | skip
  all_goals
    try rw [he]
  all_goals
    try rw [String.append_assoc]
  all_goals
    first
    | exact not_isRedef_lit _ _ (by decide)
    | exact not_isRedef_app _ _ _ (by decide) (by decide)

theorem contains_insertId_self (l : List String) (y : String) :
    (insertId l y).contains y = true := by
  by_cases h : l.contains y
  · rw [insertId, if_pos h]
    exact h
  · rw [insertId, if_neg h]
    exact List.elem_iff.mpr (List.mem_append_right l (List.mem_singleton_self y))

theorem contains_insertId_ne (l : List String) (y x : String) (h : y ≠ x) :
    (insertId l y).contains x = l.contains x := by
  by_cases hc : l.contains y
  · rw [insertId, if_pos hc]
  · rw [insertId, if_neg hc]
    by_cases hx : x ∈ l
    · have h1 : l.contains x = true := List.elem_iff.mpr hx
      have h2 : (l ++ [y]).contains x = true :=
        List.elem_iff.mpr (List.mem_append_left _ hx)
      rw [h1, h2]
    · have h1 : l.contains x = false := by
        rw [← Bool.not_eq_true]
        intro hc2
        exact hx (List.elem_iff.mp hc2)
      have h2 : (l ++ [y]).contains x = false := by
        rw [← Bool.not_eq_true]
        intro hc2
        rcases List.mem_append.mp (List.elem_iff.mp hc2) with h3 | h3
        · exact hx h3
        · exact h (List.mem_singleton.mp h3).symm
      rw [h1, h2]

theorem isRedef_newError_raw (pos : ErrorPos) (a x : String) :
    isRedef x (newError pos ("Identifier `" ++ a ++ "' redefined")) = (a == x) :=
  isRedef_redefMsg pos Severity.error a x

theorem countP_redef_block (pos : ErrorPos) (st : RootState) (idv x : String) :
    (if st.idents.contains idv then
        [newError pos ("Identifier `" ++ idv ++ "' redefined")]
      else []).countP (isRedef x) =
      (if (idv == x) && st.idents.contains x then 1 else 0) := by
  by_cases hcon : st.idents.contains idv = true
  · rw [if_pos hcon]
    rw [List.countP_cons, List.countP_nil, isRedef_newError_raw]
    by_cases hxe : idv = x
    · subst hxe
      have hm : idv ∈ st.idents := List.elem_iff.mp hcon
      simp [hm]
    · rw [beq_eq_false_iff_ne.mpr hxe]
      simp
  · rw [if_neg hcon]
    by_cases hxe : idv = x
    · subst hxe
      rw [List.countP_nil]
      have hm : idv ∉ st.idents := fun hmem => hcon (List.elem_iff.mpr hmem)
      simp [hm]
    · rw [List.countP_nil, beq_eq_false_iff_ne.mpr hxe]
      simp

theorem parseBlock_redef_count (item : ObjItem) (st : RootState) (x : String) :
    (parseBlock item st).2.countP (isRedef x) =
      (if blockId item == some x && st.idents.contains x then 1 else 0) := by
  by_cases hk : item.keys.length ≠ 2
  · rw [parseBlock, if_pos hk, blockId, if_pos hk]
    have h1 : ¬ isRedef x (newError (posFromItem item)
        "Invalid toplevel declaration") = true :=
      not_isRedef_lit _ _ (by decide)
    simp [List.countP_cons, h1, show ((none : Option String) == some x) = false from rfl]
  · rcases hc : identString (item.keys.headD {}) with ⟨cmd, d0⟩
    have hd0 : ∀ f ∈ d0, tag2 f ∈ blockTags := by
      intro f hf
      have := msgs_identString (item.keys.headD {}) f
      rw [hc] at this
      exact this hf
    have hc1 : (identString (item.keys.headD {})).1 = cmd := by rw [hc]
    rw [parseBlock, if_neg hk, blockId, if_neg hk]
    simp only [hc, hc1]
    by_cases ha : (cmd == "action") = true
    · rw [if_pos ha, if_pos ha]
      rcases hact : actionifyItem item with ⟨act?, d1⟩
      have hd1 : ∀ f ∈ d1, tag2 f ∈ blockTags := by
        intro f hf
        have := msgs_actionifyItem item f
        rw [hact] at this
        exact this hf
      rcases act? with _ | a <;>
        simp only [hact] <;>
        rw [List.countP_append, List.countP_append,
          countP_redef_zero hd0, countP_redef_zero hd1, countP_redef_block] <;>
        simp only [Nat.zero_add] <;>
        rfl
    · rw [if_neg ha, if_neg ha]
      by_cases hw : (cmd == "workflow") = true
      · rw [if_pos hw, if_pos hw]
        rcases hwf : workflowifyItem item with ⟨wf?, d1⟩
        have hd1 : ∀ f ∈ d1, tag2 f ∈ blockTags := by
          intro f hf
          have := msgs_workflowifyItem item f
          rw [hwf] at this
          exact this hf
        rcases wf? with _ | w <;>
          simp only [hwf] <;>
          rw [List.countP_append, List.countP_append,
            countP_redef_zero hd0, countP_redef_zero hd1, countP_redef_block] <;>
          simp only [Nat.zero_add] <;>
          rfl
      · rw [if_neg hw, if_neg hw]
        rw [List.countP_append, countP_redef_zero hd0]
        have h1 : ¬ isRedef x (newError (posFromItem item)
            ("Invalid toplevel keyword, `" ++ cmd ++ "'")) = true := by
          rw [String.append_assoc]
          exact not_isRedef_app _ _ _ (by decide) (by decide)
        simp [List.countP_cons, h1, show ((none : Option String) == some x) = false from rfl]

theorem parseBlock_state (item : ObjItem) (st : RootState)
    (hassign : item.assign = false) :
    (parseBlock item st).1.idents =
      (match blockId item with
        | some id => insertId st.idents id
        | none => st.idents) ∧
    (parseBlock item st).1.Actions = st.Actions ++ (actionOf item).toList ∧
    (parseBlock item st).1.Workflows = st.Workflows ++ (workflowOf item).toList ∧
    (parseBlock item st).1.Version = st.Version := by
  have hna : ¬item.assign = true := by simp [hassign]
  by_cases hk : item.keys.length ≠ 2
  · rw [parseBlock, if_pos hk, blockId, if_pos hk, actionOf, if_neg hna, if_pos hk,
      workflowOf, if_neg hna, if_pos hk]
    exact ⟨rfl, by simp, by simp, rfl⟩
  · rcases hc : identString (item.keys.headD {}) with ⟨cmd, d0⟩
    have hc1 : (identString (item.keys.headD {})).1 = cmd := by rw [hc]
    by_cases ha : (cmd == "action") = true
    · have hae := eq_of_beq ha
      subst hae
      rcases hact : actionifyItem item with ⟨act?, d1⟩
      have hao : actionOf item = act? := by
        rw [actionOf, if_neg hna, if_neg hk, hc1, if_pos (by decide), hact]
      have hwo : workflowOf item = none := by
        rw [workflowOf, if_neg hna, if_neg hk, hc1, if_neg (by decide)]
      have hbid : blockId item = some (match act? with
          | some a => a.Identifier | none => "") := by
        rw [blockId, if_neg hk, hc1, if_pos (by decide)]
        simp only [hact]
        cases act? <;> rfl
      rw [parseBlock, if_neg hk]
      simp only [hc]
      rw [if_pos (show (("action" : String) == "action") = true by decide)]
      simp only [hact]
      rcases act? with _ | a <;>
        refine ⟨?_, ?_, ?_, ?_⟩ <;>
          simp [hbid, hao, hwo]
    · by_cases hw : (cmd == "workflow") = true
      · have hwe := eq_of_beq hw
        subst hwe
        rcases hwf : workflowifyItem item with ⟨wf?, d1⟩
        have hao : actionOf item = none := by
          rw [actionOf, if_neg hna, if_neg hk, hc1, if_neg (by decide)]
        have hwo : workflowOf item = wf? := by
          rw [workflowOf, if_neg hna, if_neg hk, hc1, if_pos (by decide), hwf]
        have hbid : blockId item = some (match wf? with
            | some w => w.Identifier | none => "") := by
          rw [blockId, if_neg hk, hc1, if_neg (by decide), if_pos (by decide)]
          simp only [hwf]
          cases wf? <;> rfl
        rw [parseBlock, if_neg hk]
        simp only [hc]
        rw [if_neg (show ¬(("workflow" : String) == "action") = true by decide),
          if_pos (show (("workflow" : String) == "workflow") = true by decide)]
        simp only [hwf]
        rcases wf? with _ | w <;>
          refine ⟨?_, ?_, ?_, ?_⟩ <;>
            simp [hbid, hao, hwo]
      · have ha' : (cmd == "action") = false := Bool.eq_false_iff.mpr ha
        have hw' : (cmd == "workflow") = false := Bool.eq_false_iff.mpr hw
        have hao : actionOf item = none := by
          rw [actionOf, if_neg hna, if_neg hk, hc1, ha', if_neg (by simp)]
        have hwo : workflowOf item = none := by
          rw [workflowOf, if_neg hna, if_neg hk, hc1, hw', if_neg (by simp)]
        have hbid : blockId item = none := by
          rw [blockId, if_neg hk, hc1, ha', hw', if_neg (by simp), if_neg (by simp)]
        rw [parseBlock, if_neg hk]
        simp only [hc]
        rw [if_neg (show ¬((cmd == "action") = true) by simp [ha']),
          if_neg (show ¬((cmd == "workflow") = true) by simp [hw'])]
        refine ⟨?_, ?_, ?_, ?_⟩ <;>
          simp [hbid, hao, hwo]

theorem tag2_redef (pos : ErrorPos) (idv : String) :
    tag2 (newError pos ("Identifier `" ++ idv ++ "' redefined")) = ['I', 'd'] := by
  show ("Identifier `" ++ idv ++ "' redefined").data.take 2 = _
  rw [String.append_assoc, take2_append _ (by decide)]
  decide

theorem msgs_parseBlock (item : ObjItem) (st : RootState) :
    ∀ e ∈ (parseBlock item st).2, tag2 e ∈ (['I', 'd'] : List Char) :: blockTags := by
  intro e he
  have hlift : ∀ {f : PError}, tag2 f ∈ blockTags →
      tag2 f ∈ (['I', 'd'] : List Char) :: blockTags :=
    fun h => List.mem_cons_of_mem _ h
  by_cases hk : item.keys.length ≠ 2
  · rw [parseBlock, if_pos hk] at he
    rw [List.mem_singleton.mp he]
    exact hlift (tag_lit _ _ (by decide))
  · rcases hc : identString (item.keys.headD {}) with ⟨cmd, d0⟩
    have hd0 : ∀ f ∈ d0, tag2 f ∈ blockTags := by
      intro f hf
      have := msgs_identString (item.keys.headD {}) f
      rw [hc] at this
      exact this hf
    simp only [parseBlock, hc] at he
    rw [if_neg hk] at he
    by_cases ha : (cmd == "action") = true
    · rw [if_pos ha] at he
      rcases hact : actionifyItem item with ⟨act?, d1⟩
      have hd1 : ∀ f ∈ d1, tag2 f ∈ blockTags := by
        intro f hf
        have := msgs_actionifyItem item f
        rw [hact] at this
        exact this hf
      simp only [hact] at he
      rcases List.mem_append.mp he with h | h
      · rcases List.mem_append.mp h with h2 | h2
        · exact hlift (hd0 e h2)
        · exact hlift (hd1 e h2)
      · split at h
        · rw [List.mem_singleton.mp h, tag2_redef]
          exact List.mem_cons_self _ _
        · exact absurd h (List.not_mem_nil e)
    · rw [if_neg ha] at he
      by_cases hw : (cmd == "workflow") = true
      · rw [if_pos hw] at he
        rcases hwf : workflowifyItem item with ⟨wf?, d1⟩
        have hd1 : ∀ f ∈ d1, tag2 f ∈ blockTags := by
          intro f hf
          have := msgs_workflowifyItem item f
          rw [hwf] at this
          exact this hf
        simp only [hwf] at he
        rcases List.mem_append.mp he with h | h
        · rcases List.mem_append.mp h with h2 | h2
          · exact hlift (hd0 e h2)
          · exact hlift (hd1 e h2)
        · split at h
          · rw [List.mem_singleton.mp h, tag2_redef]
            exact List.mem_cons_self _ _
          · exact absurd h (List.not_mem_nil e)
      · rw [if_neg hw] at he
        rcases List.mem_append.mp he with h | h
        · exact hlift (hd0 e h)
        · rw [List.mem_singleton.mp h]
          refine hlift ?_
          simp only [String.append_assoc]
          exact tag_newError _ _ (by decide) (by decide)

theorem take_append_of_le {p : String} (n : Nat) (x : String) (h : n ≤ p.length) :
    (p ++ x).data.take n = p.data.take n := by
  rw [data_append]
  exact List.take_append_of_le_length h

theorem not_isMustBeFirst_of_tags2 {e : PError}
    (h : tag2 e ∈ (['I', 'd'] : List Char) :: blockTags) :
    ¬ isMustBeFirst e = true := by
  intro hc
  rw [isMustBeFirst, beq_iff_eq] at hc
  have ht : tag2 e = ['`', 'v'] := by
    show e.message.data.take 2 = _
    rw [hc]
    decide
  rw [ht] at h
  exact absurd h (by decide)

theorem not_isMustBeFirst_of_tags {e : PError} (h : tag2 e ∈ blockTags) :
    ¬ isMustBeFirst e = true :=
  not_isMustBeFirst_of_tags2 (List.mem_cons_of_mem _ h)

theorem not_isMustBeFirst_lit {m : String} (pos : ErrorPos) (sev : Severity)
    (h : (m == mustBeFirstMsg) = false) :
    ¬ isMustBeFirst (⟨pos, sev, m⟩ : PError) = true := by
  intro hc
  rw [isMustBeFirst] at hc
  rw [show (⟨pos, sev, m⟩ : PError).message = m from rfl, h] at hc
  exact Bool.false_ne_true hc

theorem not_isMustBeFirst_unsupported (v : Int) (pos : ErrorPos) :
    ¬ isMustBeFirst (newError pos
      ("`version = " ++ toString v ++ "` is not supported")) = true := by
  intro hc
  rw [isMustBeFirst, beq_iff_eq] at hc
  have hc2 : ("`version = " ++ toString v ++ "` is not supported" : String) =
      mustBeFirstMsg := hc
  have h9 := congrArg (fun s : String => s.data.take 9) hc2
  simp only at h9
  rw [String.append_assoc] at h9
  rw [take_append_of_le 9 _ (by decide)] at h9
  exact absurd h9 (by decide)

theorem parseVersion_zero (idx : Nat) (item : ObjItem) :
    (parseVersion idx item 0).1 = 0 := by
  rcases hk : identString (item.keys.headD {}) with ⟨nm, d0⟩
  rcases hv : literalToInt item.val with ⟨⟨v, ok⟩, d1⟩
  simp only [parseVersion, hk, hv]
  repeat' split
  all_goals try rfl
  all_goals simp_all
  all_goals omega

theorem parseBlock_mustBeFirst_count (item : ObjItem) (st : RootState) :
    (parseBlock item st).2.countP isMustBeFirst = 0 := by
  rw [List.countP_eq_zero]
  intro e he
  exact not_isMustBeFirst_of_tags2 (msgs_parseBlock item st e he)

theorem parseVersion_mustBeFirst_count (idx : Nat) (item : ObjItem) (version : Int) :
    (parseVersion idx item version).2.countP isMustBeFirst =
      (if item.keys.length == 1 &&
          ((identString (item.keys.headD {})).1 == "version") && (idx != 0)
        then 1 else 0) := by
  rcases hk : identString (item.keys.headD {}) with ⟨nm, d0⟩
  have hd0 : ∀ f ∈ d0, tag2 f ∈ blockTags := by
    intro f hf
    have := msgs_identString (item.keys.headD {}) f
    rw [hk] at this
    exact this hf
  have hz0 : d0.countP isMustBeFirst = 0 := by
    rw [List.countP_eq_zero]
    intro e he
    exact not_isMustBeFirst_of_tags (hd0 e he)
  rcases hv : literalToInt item.val with ⟨⟨v, ok⟩, d1⟩
  have hd1 : ∀ f ∈ d1, tag2 f ∈ blockTags := by
    intro f hf
    have := msgs_literalToInt item.val f
    rw [hv] at this
    exact this hf
  have hz1 : d1.countP isMustBeFirst = 0 := by
    rw [List.countP_eq_zero]
    intro e he
    exact not_isMustBeFirst_of_tags (hd1 e he)
  have hnm : (identString (item.keys.headD {})).1 = nm := by rw [hk]
  have hT : ¬ isMustBeFirst (newError (posFromItem item)
      "Toplevel declarations cannot be assignments") = true :=
    not_isMustBeFirst_lit _ _ (by decide)
  rw [parseVersion]
  simp only [hk, hnm]
  by_cases hkl : item.keys.length ≠ 1
  · rw [if_pos hkl]
    have hb : (item.keys.length == 1) = false := beq_eq_false_iff_ne.mpr hkl
    rw [hb]
    simp [List.countP_cons, hT]
  · rw [if_neg hkl]
    have hkl' : item.keys.length = 1 := not_not.mp hkl
    have hb : (item.keys.length == 1) = true := by simp [hkl']
    rw [hb]
    by_cases hnv : nm ≠ "version"
    · rw [if_pos hnv]
      have hb2 : (nm == "version") = false := beq_eq_false_iff_ne.mpr hnv
      rw [hb2]
      rw [List.countP_append, hz0, List.countP_cons, List.countP_nil]
      simp [hT]
    · have hnv' : nm = "version" := not_not.mp hnv
      subst hnv'
      rw [if_neg hnv]
      have hb2 : (("version" : String) == "version") = true := by decide
      rw [hb2]
      by_cases hidx : idx ≠ 0
      · rw [if_pos hidx]
        have hb3 : (idx != 0) = true := by simp [hidx]
        rw [hb3]
        rw [List.countP_append, hz0, List.countP_cons, List.countP_nil]
        have hM : isMustBeFirst (newError (posFromItem item)
            "`version` must be the first declaration") = true := by
          rw [isMustBeFirst]
          show (("`version` must be the first declaration" : String) ==
            mustBeFirstMsg) = true
          decide
        simp [hM]
      · rw [if_neg hidx]
        have hidx' : idx = 0 := not_not.mp hidx
        have hb3 : (idx != 0) = false := by simp [hidx']
        rw [hb3]
        have hz01 : (d0 ++ d1).countP isMustBeFirst = 0 := by
          rw [List.countP_append, hz0, hz1]
        simp only [hv]
        split
        · rw [hz01]
          simp
        · split
          · rw [List.countP_append, hz01, List.countP_cons, List.countP_nil]
            simp [not_isMustBeFirst_unsupported v (posFromItem item)]
          · rw [hz01]
            simp

theorem parseItems_redef_count (x : String) :
    ∀ (items : List ObjItem) (idx : Nat) (st : RootState),
      (parseItems idx st items).2.countP (isRedef x) =
        blocksWithId x items -
          (if st.idents.contains x then 0 else min 1 (blocksWithId x items)) := by
  intro items
  induction items with
  | nil =>
    intro idx st
    simp [parseItems, blocksWithId]
  | cons item rest ih =>
    intro idx st
    rw [parseItems]
    by_cases hassign : item.assign = true
    · rw [if_pos hassign]
      rcases hpv : parseVersion idx item st.Version with ⟨v, d⟩
      simp only [hpv]
      rw [List.countP_append]
      have h0 : d.countP (isRedef x) = 0 := by
        have := countP_redef_parseVersion x idx item st.Version
        rw [hpv] at this
        exact this
      rw [h0]
      have hb : blocksWithId x (item :: rest) = blocksWithId x rest := by
        rw [blocksWithId, List.countP_cons]
        simp [hassign, blocksWithId]
      rw [hb, ih (idx + 1) { st with Version := v }]
      simp
    · rw [if_neg hassign]
      have hasf : item.assign = false := Bool.eq_false_iff.mpr hassign
      rcases hpb : parseBlock item st with ⟨st1, d⟩
      simp only [hpb]
      rw [List.countP_append]
      have hcount := parseBlock_redef_count item st x
      rw [hpb] at hcount
      have hstate := parseBlock_state item st hasf
      rw [hpb] at hstate
      rw [show ((st1, d).2 : List PError) = d from rfl] at hcount
      rw [hcount, ih (idx + 1) st1]
      rcases hbid : blockId item with _ | idv
      · rw [hbid] at hstate
        have hid1 : st1.idents = st.idents := hstate.1
        have hb : blocksWithId x (item :: rest) = blocksWithId x rest := by
          rw [blocksWithId, List.countP_cons]
          simp [hbid, blocksWithId]
        rw [hb, hid1]
        simp [show ((none : Option String) == some x) = false from rfl]
      · rw [hbid] at hstate
        have hid1 : st1.idents = insertId st.idents idv := hstate.1
        by_cases hxe : idv = x
        · subst hxe
          have hb : blocksWithId idv (item :: rest) = blocksWithId idv rest + 1 := by
            rw [blocksWithId, List.countP_cons]
            simp [hbid, hasf, blocksWithId]
          have hcont1 : st1.idents.contains idv = true := by
            rw [hid1]
            exact contains_insertId_self _ _
          rw [hb, hcont1]
          have hsome : ((some idv == some idv) = true) := by simp
          rw [hsome]
          by_cases hcon : st.idents.contains idv = true
          · rw [hcon]
            simp [Nat.add_comm]
          · have hconf : st.idents.contains idv = false := Bool.eq_false_iff.mpr hcon
            rw [hconf]
            simp [Nat.min_def]
        · have hb : blocksWithId x (item :: rest) = blocksWithId x rest := by
            rw [blocksWithId, List.countP_cons]
            have h5 : ((some idv == some x) = false) := by
              show ((idv == x) = false)
              exact beq_eq_false_iff_ne.mpr hxe
            simp [hbid, h5, blocksWithId]
          have hcont1 : st1.idents.contains x = st.idents.contains x := by
            rw [hid1]
            exact contains_insertId_ne _ _ _ hxe
          have h5 : ((some idv == some x) = false) := by
            show ((idv == x) = false)
            exact beq_eq_false_iff_ne.mpr hxe
          rw [hb, hcont1, h5]
          simp

theorem parseItems_model :
    ∀ (items : List ObjItem) (idx : Nat) (st : RootState),
      (parseItems idx st items).1.Actions =
        st.Actions ++ items.filterMap actionOf ∧
      (parseItems idx st items).1.Workflows =
        st.Workflows ++ items.filterMap workflowOf := by
  intro items
  induction items with
  | nil =>
    intro idx st
    simp [parseItems]
  | cons item rest ih =>
    intro idx st
    rw [parseItems]
    by_cases hassign : item.assign = true
    · rw [if_pos hassign]
      rcases hpv : parseVersion idx item st.Version with ⟨v, d⟩
      simp only [hpv]
      have hao : actionOf item = none := by rw [actionOf, if_pos hassign]
      have hwo : workflowOf item = none := by rw [workflowOf, if_pos hassign]
      constructor
      · rw [(ih (idx + 1) { st with Version := v }).1,
          List.filterMap_cons_none hao]
      · rw [(ih (idx + 1) { st with Version := v }).2,
          List.filterMap_cons_none hwo]
    · rw [if_neg hassign]
      have hasf : item.assign = false := Bool.eq_false_iff.mpr hassign
      rcases hpb : parseBlock item st with ⟨st1, d⟩
      simp only [hpb]
      have hstate := parseBlock_state item st hasf
      rw [hpb] at hstate
      constructor
      · rw [(ih (idx + 1) st1).1]
        have h1 : st1.Actions = st.Actions ++ (actionOf item).toList := hstate.2.1
        rw [h1, List.append_assoc]
        congr 1
        rw [List.filterMap_cons]
        cases hx : actionOf item <;> simp [Option.toList]
      · rw [(ih (idx + 1) st1).2]
        have h1 : st1.Workflows = st.Workflows ++ (workflowOf item).toList :=
          hstate.2.2.1
        rw [h1, List.append_assoc]
        congr 1
        rw [List.filterMap_cons]
        cases hx : workflowOf item <;> simp [Option.toList]

theorem parseItems_version :
    ∀ (items : List ObjItem) (idx : Nat) (st : RootState), st.Version = 0 →
      (parseItems idx st items).1.Version = 0 := by
  intro items
  induction items with
  | nil =>
    intro idx st h
    simpa [parseItems] using h
  | cons item rest ih =>
    intro idx st h
    rw [parseItems]
    by_cases hassign : item.assign = true
    · rw [if_pos hassign]
      rcases hpv : parseVersion idx item st.Version with ⟨v, d⟩
      simp only [hpv]
      refine ih (idx + 1) _ ?_
      show v = 0
      rw [h] at hpv
      have := parseVersion_zero idx item
      rw [hpv] at this
      exact this
    · rw [if_neg hassign]
      have hasf : item.assign = false := Bool.eq_false_iff.mpr hassign
      rcases hpb : parseBlock item st with ⟨st1, d⟩
      simp only [hpb]
      refine ih (idx + 1) st1 ?_
      have hstate := parseBlock_state item st hasf
      rw [hpb] at hstate
      rw [hstate.2.2.2]
      exact h

theorem parseItems_mustBeFirst_count :
    ∀ (items : List ObjItem) (idx : Nat) (st : RootState),
      (parseItems idx st items).2.countP isMustBeFirst =
        countLaterVersions idx items := by
  intro items
  induction items with
  | nil =>
    intro idx st
    simp [parseItems, countLaterVersions]
  | cons item rest ih =>
    intro idx st
    rw [parseItems, countLaterVersions]
    by_cases hassign : item.assign = true
    · rw [if_pos hassign]
      rcases hpv : parseVersion idx item st.Version with ⟨v, d⟩
      simp only [hpv]
      rw [List.countP_append]
      have h0 := parseVersion_mustBeFirst_count idx item st.Version
      rw [hpv] at h0
      rw [show ((v, d).2 : List PError) = d from rfl] at h0
      rw [h0, ih (idx + 1) { st with Version := v }]
      simp [hassign, Nat.add_comm]
    · rw [if_neg hassign]
      have hasf : (item.assign = false) := Bool.eq_false_iff.mpr hassign
      rcases hpb : parseBlock item st with ⟨st1, d⟩
      simp only [hpb]
      rw [List.countP_append]
      have h0 := parseBlock_mustBeFirst_count item st
      rw [hpb] at h0
      rw [show ((st1, d).2 : List PError) = d from rfl] at h0
      rw [h0, ih (idx + 1) st1]
      simp [hasf]

/-- C5: top-level blocks (actions and workflows alike) draw their
identifiers from one shared namespace: over a whole file, the number of
ERROR diagnostics "Identifier `x' redefined" is exactly one less than the
number of blocks whose identifier is `x` (and zero when no block carries
`x`), each being emitted at a repeated occurrence; every parsed record is
nevertheless retained in the returned model, both at the parse stage and
after validation.  On the concrete file `c5Root` — an action and a workflow
both named `a` — exactly one such ERROR is emitted, at the second block's
line, and both records are kept. -/
theorem identifier_redefinition (x : String) (items : List ObjItem)
    (o : Nat → List String) :
    ((parseRoot (.objectList items)).Errors.countP (isRedef x) =
      blocksWithId x items - min 1 (blocksWithId x items)) ∧
    ((parseRoot (.objectList items)).Actions = items.filterMap actionOf) ∧
    ((parseRoot (.objectList items)).Workflows = items.filterMap workflowOf) ∧
    ((parseAndValidate o (.objectList items)).Actions.map
        (fun a => a.Identifier) =
      (items.filterMap actionOf).map (fun a => a.Identifier)) ∧
    ((parseAndValidate o (.objectList items)).Workflows =
      items.filterMap workflowOf) ∧
    ((parseRoot c5Root).Errors = [newError { line := 3 } (redefMsg "a")] ∧
      (parseRoot c5Root).Actions.length = 1 ∧
      (parseRoot c5Root).Workflows.length = 1) := by
  have h1 : (parseRoot (.objectList items)).Errors.countP (isRedef x) =
      blocksWithId x items - min 1 (blocksWithId x items) := by
    show (parseItems 0 {} items).2.countP (isRedef x) = _
    rw [parseItems_redef_count x items 0 {}]
    simp
  have h2 : (parseRoot (.objectList items)).Actions = items.filterMap actionOf := by
    show (parseItems 0 {} items).1.Actions = _
    rw [(parseItems_model items 0 {}).1]
    rfl
  have h3 : (parseRoot (.objectList items)).Workflows =
      items.filterMap workflowOf := by
    show (parseItems 0 {} items).1.Workflows = _
    rw [(parseItems_model items 0 {}).2]
    rfl
  have h4 : (parseAndValidate o (.objectList items)).Actions.map
      (fun a => a.Identifier) =
      (items.filterMap actionOf).map (fun a => a.Identifier) := by
    show ((analyzeDependencies (parseRoot (.objectList items)).Actions).1).map
      (fun a => a.Identifier) = _
    rw [analyzeDependencies]
    rw [List.map_map]
    rw [show ((fun a => a.Identifier) ∘ (fun a : Action =>
        if 2 ≤ a.Needs.length then { a with Needs := uniqStrings a.Needs } else a)) =
        (fun a : Action => a.Identifier) from by
      funext a
      simp only [Function.comp]
      split <;> rfl]
    rw [h2]
  have h5 : (parseAndValidate o (.objectList items)).Workflows =
      items.filterMap workflowOf := h3
  exact ⟨h1, h2, h3, h4, h5, by rfl, by rfl, by rfl⟩

/-- C6: a top-level `version = <integer>` item is accepted only as the
first top-level item and only with value 0: the stored Version of any
parse result is 0; over any item list the "`version` must be the first
declaration" ERROR is emitted exactly once per version item at a nonzero
index; a first-position `version = v` with `v ≠ 0` yields exactly the one
ERROR "`version = v` is not supported" with Version still 0; and on the
concrete file `c6LateRoot` the late `version = 0` item yields exactly the
placement ERROR while the action is still extracted. -/
theorem version_item_rules (v : Int) (hv : v ≠ 0) (items : List ObjItem)
    (idx : Nat) (st : RootState) (o : Nat → List String) (root : Node) :
    ((parseAndValidate o root).Version = 0) ∧
    ((parseItems idx st items).2.countP isMustBeFirst =
      countLaterVersions idx items) ∧
    ((parseRoot (c6VersionRoot v)).Errors =
      [newError { line := 1 }
        ("`version = " ++ toString v ++ "` is not supported")] ∧
      (parseRoot (c6VersionRoot v)).Version = 0) ∧
    ((parseRoot c6LateRoot).Errors = [newError { line := 2 } mustBeFirstMsg] ∧
      (parseRoot c6LateRoot).Version = 0 ∧
      (parseRoot c6LateRoot).Actions.length = 1) := by
  have h1 : (parseAndValidate o root).Version = 0 := by
    show (parseRoot root).Version = 0
    rcases root with items' | x1 | x2 | x3
    · show (parseItems 0 {} items').1.Version = 0
      exact parseItems_version items' 0 {} rfl
    all_goals rfl
  have hcond : (decide (v < 0) || decide (v > 0)) = true := by
    rcases lt_or_gt_of_ne hv with h | h
    · simp [h]
    · simp [h]
  have hpv : parseVersion 0 (ObjItem.mk
      [{ pos := { line := 1 }, ty := TokenType.identT, text := "version" }] true
      (Node.literal { pos := { line := 1 }, ty := TokenType.numberT, ivalue := v }))
      0 =
      (if (decide (v < 0) || decide (v > 0)) = true then
        ((0 : Int), [newError { line := 1 }
          ("`version = " ++ toString v ++ "` is not supported")])
      else (v, [])) := rfl
  have h3a : (parseRoot (c6VersionRoot v)).Errors =
      [newError { line := 1 }
        ("`version = " ++ toString v ++ "` is not supported")] := by
    show (parseItems 0 {} [ObjItem.mk [{ pos := { line := 1 }, ty := TokenType.identT, text := "version" }] true (Node.literal { pos := { line := 1 }, ty := TokenType.numberT, ivalue := v })]).2 = _
    rw [parseItems]
    rw [if_pos (show (ObjItem.mk [{ pos := { line := 1 }, ty := TokenType.identT, text := "version" }] true (Node.literal { pos := { line := 1 }, ty := TokenType.numberT, ivalue := v })).assign = true from rfl)]
    rw [show ({} : RootState).Version = 0 from rfl]
    rw [hpv, if_pos hcond]
    rw [parseItems]
    simp
  have h3b : (parseRoot (c6VersionRoot v)).Version = 0 := by
    show (parseItems 0 {} [ObjItem.mk [{ pos := { line := 1 }, ty := TokenType.identT, text := "version" }] true (Node.literal { pos := { line := 1 }, ty := TokenType.numberT, ivalue := v })]).1.Version = 0
    exact parseItems_version _ 0 {} rfl
  exact ⟨h1, parseItems_mustBeFirst_count items idx st, ⟨h3a, h3b⟩,
    by rfl, by rfl, by rfl⟩

/-- Witness for C6 at `version = 42` (the test suite's own value). -/
theorem version_item_rules_witness :
    (parseRoot (c6VersionRoot 42)).Errors =
      [newError { line := 1 }
        ("`version = " ++ toString (42 : Int) ++ "` is not supported")] ∧
    (parseRoot (c6VersionRoot 42)).Version = 0 :=
  (version_item_rules 42 (by decide) [] 0 {} (fun _ => []) (.objectList [])).2.2.1

theorem insertByLine_perm (e : PError) :
    ∀ l : List PError, List.Perm (insertByLine e l) (e :: l) := by
  intro l
  induction l with
  | nil => exact List.Perm.refl _
  | cons f rest ih =>
    rw [insertByLine]
    split
    · exact ((ih.cons f).trans (List.Perm.swap e f rest)).symm.symm
    · exact List.Perm.refl _

theorem sortErrors_perm : ∀ l : List PError, List.Perm (sortErrors l) l := by
  intro l
  induction l with
  | nil => exact List.Perm.refl _
  | cons e rest ih =>
    rw [sortErrors]
    exact (insertByLine_perm e (sortErrors rest)).trans (ih.cons e)

theorem checkActionsFrom_perm (o₁ o₂ : Nat → List String) :
    ∀ (actions : List Action) (i : Nat) (secrets : List String),
      (∀ j, j < actions.length → List.Perm (o₁ (i + j)) (o₂ (i + j))) →
      List.Perm (checkActionsFrom o₁ i secrets actions)
        (checkActionsFrom o₂ i secrets actions) := by
  intro actions
  induction actions with
  | nil =>
    intro i secrets h
    exact List.Perm.refl _
  | cons t rest ih =>
    intro i secrets h
    rw [checkActionsFrom, checkActionsFrom]
    have h0 : List.Perm (o₁ i) (o₂ i) := by
      have := h 0 (by simp)
      simpa using this
    have hEnv : List.Perm
        ((o₁ i).flatMap (fun k => checkEnvironmentVariable k t.posEnv))
        ((o₂ i).flatMap (fun k => checkEnvironmentVariable k t.posEnv)) :=
      h0.flatMap_right _
    have hrec : List.Perm
        (checkActionsFrom o₁ (i + 1) (ceilingScan t.posSecrets t.Secrets secrets).2 rest)
        (checkActionsFrom o₂ (i + 1) (ceilingScan t.posSecrets t.Secrets secrets).2 rest) := by
      refine ih (i + 1) _ ?_
      intro j hj
      have := h (j + 1) (by simpa using Nat.succ_lt_succ hj)
      rwa [show i + (j + 1) = i + 1 + j from by omega] at this
    exact ((((List.Perm.refl _).append hEnv).append
      (List.Perm.refl _)).append hrec)

theorem analyzeDependencies_length (l : List Action) :
    (analyzeDependencies l).1.length = l.length := by
  rw [analyzeDependencies]
  exact List.length_map _ _

theorem validEnvOrder1_c2 : ValidEnvOrder envOrder1 (parseRoot c2Root) := by
  intro i hi
  have hl : (parseRoot c2Root).Actions.length = 1 := by rfl
  rw [hl] at hi
  have hi0 : i = 0 := by omega
  subst hi0
  have hkeys : ((parseRoot c2Root).Actions.getD 0 default).Env.map Prod.fst =
      ["^", "%"] := by rfl
  rw [hkeys]
  exact List.Perm.refl _

theorem validEnvOrder2_c2 : ValidEnvOrder envOrder2 (parseRoot c2Root) := by
  intro i hi
  have hl : (parseRoot c2Root).Actions.length = 1 := by rfl
  rw [hl] at hi
  have hi0 : i = 0 := by omega
  subst hi0
  have hkeys : ((parseRoot c2Root).Actions.getD 0 default).Env.map Prod.fst =
      ["^", "%"] := by rfl
  rw [hkeys]
  exact List.Perm.swap "^" "%" []

/-- The spec's determinism claim fails on the map-iteration order: two
legitimate runs of `Parse` on the same bytes — two iteration orders of the
one action's env map, both permutations of its key set — produce different
diagnostic lists. -/
theorem parse_determinism_counterexample :
    ValidEnvOrder envOrder1 (parseRoot c2Root) ∧
    ValidEnvOrder envOrder2 (parseRoot c2Root) ∧
    Parse (fun _ => .ok c2Root) envOrder1 (.ok "") ≠
      Parse (fun _ => .ok c2Root) envOrder2 (.ok "") :=
  ⟨validEnvOrder1_c2, validEnvOrder2_c2, by decide⟩

/-- C2 (corrected): parsing is deterministic up to the env-map iteration
order: for any two legitimate iteration orders of the same file's env maps
the extracted Version, Actions and Workflows coincide, and the two
diagnostic lists are permutations of each other (the final sort is stable
and compares only line numbers, so same-line diagnostics may become visible
in different orders). -/
theorem parse_determinism (o₁ o₂ : Nat → List String) (root : Node)
    (h₁ : ValidEnvOrder o₁ (parseRoot root))
    (h₂ : ValidEnvOrder o₂ (parseRoot root)) :
    (parseAndValidate o₁ root).Version = (parseAndValidate o₂ root).Version ∧
    (parseAndValidate o₁ root).Actions = (parseAndValidate o₂ root).Actions ∧
    (parseAndValidate o₁ root).Workflows = (parseAndValidate o₂ root).Workflows ∧
    List.Perm (parseAndValidate o₁ root).Errors
      (parseAndValidate o₂ root).Errors := by
  refine ⟨rfl, rfl, rfl, ?_⟩
  show List.Perm (sortErrors (validateWith o₁ (parseRoot root)).Errors)
    (sortErrors (validateWith o₂ (parseRoot root)).Errors)
  have hact : List.Perm
      (checkActions (analyzeDependencies (parseRoot root).Actions).1 o₁)
      (checkActions (analyzeDependencies (parseRoot root).Actions).1 o₂) := by
    rw [checkActions, checkActions]
    refine checkActionsFrom_perm o₁ o₂ _ 0 [] ?_
    intro j hj
    rw [analyzeDependencies_length] at hj
    rw [show (0 : Nat) + j = j from by omega]
    exact (h₁ j hj).trans (h₂ j hj).symm
  have hmain : List.Perm (validateWith o₁ (parseRoot root)).Errors
      (validateWith o₂ (parseRoot root)).Errors := by
    show List.Perm
      ((parseRoot root).Errors ++ (analyzeDependencies (parseRoot root).Actions).2 ++
        checkCircularDependencies (analyzeDependencies (parseRoot root).Actions).1 ++
        checkActions (analyzeDependencies (parseRoot root).Actions).1 o₁ ++
        checkFlows (parseRoot root).Workflows
          (analyzeDependencies (parseRoot root).Actions).1)
      ((parseRoot root).Errors ++ (analyzeDependencies (parseRoot root).Actions).2 ++
        checkCircularDependencies (analyzeDependencies (parseRoot root).Actions).1 ++
        checkActions (analyzeDependencies (parseRoot root).Actions).1 o₂ ++
        checkFlows (parseRoot root).Workflows
          (analyzeDependencies (parseRoot root).Actions).1)
    exact ((List.Perm.refl _).append hact).append (List.Perm.refl _)
  exact (sortErrors_perm _).trans (hmain.trans (sortErrors_perm _).symm)

/-- Witness for C2 at the concrete file `c2Root` with its two env orders. -/
theorem parse_determinism_witness :
    (parseAndValidate envOrder1 c2Root).Actions =
      (parseAndValidate envOrder2 c2Root).Actions ∧
    List.Perm (parseAndValidate envOrder1 c2Root).Errors
      (parseAndValidate envOrder2 c2Root).Errors :=
  ⟨(parse_determinism envOrder1 envOrder2 c2Root
      validEnvOrder1_c2 validEnvOrder2_c2).2.1,
    (parse_determinism envOrder1 envOrder2 c2Root
      validEnvOrder1_c2 validEnvOrder2_c2).2.2.2⟩

end WFP
